import Mathlib

/-!
Verification of the UI element serialization, addressing and action-dispatch
core of `mcp-osx` (files `serializewindowstructure.py`, `elementfinder.py`,
`main.py`).  Native accessibility elements are modelled as pure trees whose
attribute reads are total (a read that would raise on a live element is
modelled by an absent value); Python string operations used by the code
(`str.split`, `str.join`, `str.strip`, `int`, `str`) are embedded as explicit
character-list functions so that their round-trip properties can be proved.
-/

namespace McpOsx

/-! ## Python string primitives -/

/-- Python whitespace characters (ASCII subset used by `str.strip()`). -/
def isPyWs (c : Char) : Bool :=
  c = ' ' ∨ c = '\t' ∨ c = '\n' ∨ c = '\r' ∨ c = Char.ofNat 11 ∨ c = Char.ofNat 12

/-- `str.strip()` with no argument: drop leading and trailing whitespace. -/
def stripWs (l : List Char) : List Char :=
  ((l.dropWhile isPyWs).reverse.dropWhile isPyWs).reverse

/-- `str.strip(chars)` for a single-character argument: drop that character
from both ends. -/
def stripChar (c : Char) (l : List Char) : List Char :=
  ((l.dropWhile (· = c)).reverse.dropWhile (· = c)).reverse

/-- Contiguous-subsequence test used to embed Python substring
containment. -/
def containsSeq (needle : List Char) : List Char → Bool
  | [] => needle.isEmpty
  | c :: rest => needle.isPrefixOf (c :: rest) || containsSeq needle rest

/-- `needle in hay` for Python strings (substring containment). -/
def strContains (hay needle : String) : Bool :=
  containsSeq needle.data hay.data

/-- ASCII approximation of `str.lower()` (all strings handled by the
repository are ASCII role/action names). -/
def charLower (c : Char) : Char :=
  if 'A' ≤ c ∧ c ≤ 'Z' then Char.ofNat (c.toNat + 32) else c

def pyLower (s : String) : String := ⟨s.data.map charLower⟩

/-- `s.startswith(p)`. -/
def pyStartsWith (s p : String) : Bool := p.data.isPrefixOf s.data

/-- Decimal digit characters of a natural number, most significant first:
the embedding of Python `str(i)` for a non-negative integer. -/
def natChars (n : Nat) : List Char :=
  if n = 0 then ['0'] else ((Nat.digits 10 n).map Nat.digitChar).reverse

/-- `"/".join(str(i) for i in path)` at the character level. -/
def joinSep (sep : Char) : List (List Char) → List Char
  | [] => []
  | [x] => x
  | x :: y :: rest => x ++ sep :: joinSep sep (y :: rest)

def pathChars (p : List Nat) : List Char := joinSep '/' (p.map natChars)

/-- The path identifier issued by the serializer:
`"/".join(str(i) for i in path)`. -/
def pathToId (p : List Nat) : String := ⟨pathChars p⟩

/-- `s.split(sep)` for a single-character separator, Python semantics
(`"".split("/") = [""]`, `"/".split("/") = ["", ""]`). -/
def splitOnChar (sep : Char) : List Char → List (List Char)
  | [] => [[]]
  | c :: rest =>
    match splitOnChar sep rest with
    | [] => [[c]]
    | h :: t => if c = sep then [] :: h :: t else (c :: h) :: t

/-- Numeric value of a decimal digit character. -/
def digitVal (c : Char) : Nat := c.toNat - '0'.toNat

/-- Parse an unsigned run of decimal digits (empty or non-digit input fails). -/
def parseDigits (l : List Char) : Option Nat :=
  if l ≠ [] ∧ l.all Char.isDigit then
    some (l.foldl (fun a c => 10 * a + digitVal c) 0)
  else none

/-- Embedding of Python `int(x)` on a string: optional surrounding
whitespace, optional sign, then decimal digits (underscore separators are
not modelled; no identifier in this development contains them). -/
def pyIntChars (l : List Char) : Option Int :=
  match stripWs l with
  | '-' :: rest => (parseDigits rest).map (fun n => -(n : Int))
  | '+' :: rest => (parseDigits rest).map (fun n => (n : Int))
  | t => (parseDigits t).map (fun n => (n : Int))

/-- Python list indexing `l[i]` with negative-index wrap-around; `none`
models the raised `IndexError`. -/
def pyIndex (l : List α) (i : Int) : Option α :=
  if 0 ≤ i then l[i.toNat]?
  else if (-i) ≤ (l.length : Int) then l[(l.length - (-i).toNat)]?
  else none

/-- ASCII approximation of `str.isidentifier()`. -/
def isPyIdentStart (c : Char) : Bool := c.isAlpha ∨ c = '_'

def isPyIdentChar (c : Char) : Bool := c.isAlphanum ∨ c = '_'

def isPyIdentifier (s : String) : Bool :=
  match s.data with
  | [] => false
  | c :: rest => isPyIdentStart c ∧ rest.all isPyIdentChar

/-- The regex `@([\d/]+)$` of `find_element_by_id`: its unique possible
match takes the last `@` of the string, provided everything after it is a
non-empty run of digits and slashes; returns that suffix. -/
def isPathChar (c : Char) : Bool := c.isDigit ∨ c = '/'

def axSuffix : List Char → Option (List Char)
  | [] => none
  | c :: rest =>
    match axSuffix rest with
    | some r => some r
    | none =>
      if c = '@' ∧ rest ≠ [] ∧ rest.all isPathChar then some rest else none

/-! ## Native element model (serializer side)

A native accessibility element is modelled as a finite tree.  Attribute
reads through the code's `safe_get`/`safe` helpers are total here: an
attribute that is missing, of the wrong type, or whose read would raise on
a live element is modelled as `none`. -/

/-- An `AXValue` payload: a string, or some non-string value (number,
bool, object); `get_accessibility_name` only cares whether it is a string. -/
inductive PyVal : Type where
  | str (s : String)
  | nonstr
deriving DecidableEq, Repr

/-- The sub-element reached through `AXTitleUIElement`: only its
`AXValue`/`AXTitle`/`AXLabel` string attributes are ever read. -/
structure TitleElem : Type where
  value : Option String
  title : Option String
  label : Option String
deriving DecidableEq, Repr

structure AXAttrs : Type where
  axIdentifier : Option String
  axRole : Option String
  axTitle : Option String
  axLabel : Option String
  axValue : Option PyVal
  axHelp : Option String
  axDescription : Option String
  axRoleDescription : Option String
  axTitleUIElement : Option TitleElem
deriving DecidableEq, Repr

/-- A native element: attributes, supported action names
(`getActions()`), and the `AXChildren` list. -/
inductive AXElement : Type where
  | mk (attrs : AXAttrs) (actions : List String) (children : List AXElement)

def AXElement.attrs : AXElement → AXAttrs
  | .mk a _ _ => a

def AXElement.actions : AXElement → List String
  | .mk _ a _ => a

def AXElement.children : AXElement → List AXElement
  | .mk _ _ c => c

/-- An element with every attribute absent. -/
def emptyAttrs : AXAttrs :=
  ⟨none, none, none, none, none, none, none, none, none⟩

/-! ## `simplify_role` (serializewindowstructure.py:217-231) -/

/-- `simplify_role(ax_role, actions)`: classification of a raw role string
plus supported actions into the closed semantic-role set.  `ax_role` is
`Option String` because callers pass the result of a safe attribute read;
`if not ax_role` is true exactly for an absent or empty role. -/
def simplify_role (ax_role : Option String) (actions : List String) : String :=
  if ax_role = none ∨ ax_role = some "" then "element"
  else
    let role := pyLower (ax_role.getD "")
    if ["button", "checkbox", "radio", "menu", "tab"].any
        (fun k => strContains role k) then "button"
    else if ["textfield", "text area", "search"].any
        (fun k => strContains role k) then "input"
    else if strContains role "statictext" ∨ strContains role "label" then "text"
    else if actions.any (fun a => pyStartsWith (pyLower a) "scroll") then "scrollable"
    else if strContains role "window" ∨ strContains role "group" ∨
        strContains role "split" ∨ strContains role "toolbar" then "container"
    else "element"

/-! ## `get_accessibility_name` (serializewindowstructure.py:233-269) -/

/-- The per-attribute test used throughout `get_accessibility_name`:
keep a string whose whitespace-strip is non-empty, returning the stripped
form. -/
def strOk (v : Option String) : Option String :=
  match v with
  | some s => if stripWs s.data = [] then none else some ⟨stripWs s.data⟩
  | none => none

/-- `AXValue` viewed as an optional string (non-string payloads fail the
`isinstance(v, str)` guard). -/
def AXAttrs.axValueStr (a : AXAttrs) : Option String :=
  match a.axValue with
  | some (.str s) => some s
  | _ => none

/-- `get_accessibility_name(elem)`: first non-empty among title-like
attributes, then help/description, then the titled label sub-element's
text, then the role description. -/
def get_accessibility_name (elem : AXElement) : Option String :=
  let a := elem.attrs
  (strOk a.axTitle).orElse fun _ =>
  (strOk a.axLabel).orElse fun _ =>
  (strOk a.axValueStr).orElse fun _ =>
  (strOk a.axHelp).orElse fun _ =>
  (strOk a.axDescription).orElse fun _ =>
  (match a.axTitleUIElement with
   | some te =>
     (strOk te.value).orElse fun _ =>
     (strOk te.title).orElse fun _ => (strOk te.label)
   | none => none).orElse fun _ =>
  (strOk a.axRoleDescription)

/-! ## `get_window_structure_abstract` (serializewindowstructure.py:272-346) -/

/-- The serialized output node: the dict
`{"id", "role", "name", "actions", "children"}`. -/
inductive ElementData : Type where
  | mk (id : String) (role : String) (name : Option String)
      (actions : List String) (children : List ElementData)

def ElementData.id : ElementData → String
  | .mk i _ _ _ _ => i

def ElementData.role : ElementData → String
  | .mk _ r _ _ _ => r

def ElementData.name : ElementData → Option String
  | .mk _ _ n _ _ => n

def ElementData.actions : ElementData → List String
  | .mk _ _ _ a _ => a

def ElementData.children : ElementData → List ElementData
  | .mk _ _ _ _ c => c

/-- The mutable fields of `element_data` during the child-merge loop. -/
structure MergeState : Type where
  role : String
  name : Option String
  actions : List String
  children : List ElementData

/-- The action roll-up:
`for a in child_actions: if a not in parent_actions: parent_actions.append(a)`. -/
def unionActions (parent child : List String) : List String :=
  child.foldl (fun acc a => if a ∈ acc then acc else acc ++ [a]) parent

/-- The actionable names tested by the promotion and absorption guards. -/
def pressLikeActions : List String := ["press", "open", "showmenu", "showdefaultui"]

/-- Python truthiness of `element_data.get("name")`. -/
def pyFalsyName : Option String → Bool
  | none => true
  | some s => s = ""

/-- One iteration of the post-order merge loop
(serializewindowstructure.py:314-339) applied to a retained child's
serialized data: action roll-up, role promotion, then label absorption or
normal append. -/
def mergeChild (st : MergeState) (cd : ElementData) : MergeState :=
  let actions := unionActions st.actions cd.actions
  let role :=
    if (st.role = "element" ∨ st.role = "container") ∧
        pressLikeActions.any (fun a => a ∈ actions) then "button"
    else st.role
  if cd.role = "text" ∧ pyFalsyName st.name ∧
      pressLikeActions.any (fun a => a ∈ actions) then
    ⟨role, cd.name, actions, st.children⟩
  else
    ⟨role, st.name, actions, st.children ++ [cd]⟩

mutual

/-- `serialize(elem, path, depth)` inside `get_window_structure_abstract`.
Attribute reads are total in this model, so the `valid_children` filter
(which drops children whose role read raises) retains every child, and the
whole-call `except` wrapper never fires. -/
def serializeAbs (elem : AXElement) (path : List Nat) (depth : Nat) :
    Option ElementData :=
  match elem with
  | .mk attrs acts cs =>
    if depth > 40 then none
    else
      let simpleRole := simplify_role attrs.axRole acts
      let name := get_accessibility_name (.mk attrs acts cs)
      let st0 : MergeState := ⟨simpleRole, name, acts.map pyLower, []⟩
      let stF := serializeFold cs path 0 (depth + 1) st0
      some (.mk (pathToId path) stF.role stF.name stF.actions stF.children)
termination_by sizeOf elem
decreasing_by all_goals simp_wf

/-- The `for i, child in enumerate(valid_children)` loop: serialize each
child at `path + [i]`, skip it if the recursion returned `None`
(depth-cap truncation), otherwise run the merge step. -/
def serializeFold (cs : List AXElement) (path : List Nat) (i : Nat)
    (depth : Nat) (st : MergeState) : MergeState :=
  match cs with
  | [] => st
  | c :: rest =>
    let st1 :=
      match serializeAbs c (path ++ [i]) depth with
      | none => st
      | some cd => mergeChild st cd
    serializeFold rest path (i + 1) depth st1
termination_by sizeOf cs
decreasing_by all_goals simp_wf <;> simp_arith

end

/-- `get_window_structure_abstract(window_element)`: root call at path
`[0]`, depth `0`.  In the total model the top-level `except` never fires,
and depth 0 passes the cap, so the result is always a node. -/
def get_window_structure_abstract (window_element : AXElement) : Option ElementData :=
  serializeAbs window_element [0] 0


/-! ## Basic lemmas about the merge step -/

theorem mem_unionActions (c : List String) (p : List String) (a : String) :
    a ∈ unionActions p c ↔ a ∈ p ∨ a ∈ c := by
  induction c generalizing p with
  | nil => simp [unionActions]
  | cons x c ih =>
    show a ∈ unionActions (if x ∈ p then p else p ++ [x]) c ↔ _
    rw [ih]
    by_cases hx : x ∈ p
    · rw [if_pos hx]
      constructor
      · rintro (h | h)
        · exact Or.inl h
        · exact Or.inr (List.mem_cons_of_mem x h)
      · rintro (h | h)
        · exact Or.inl h
        · rcases List.mem_cons.mp h with h | h
          · exact Or.inl (h ▸ hx)
          · exact Or.inr h
    · rw [if_neg hx]
      simp only [List.mem_append, List.mem_singleton, List.mem_cons]
      tauto

theorem mergeChild_actions (st : MergeState) (cd : ElementData) :
    (mergeChild st cd).actions = unionActions st.actions cd.actions := by
  simp only [mergeChild]; split <;> rfl

theorem mergeChild_role (st : MergeState) (cd : ElementData) :
    (mergeChild st cd).role =
      if (st.role = "element" ∨ st.role = "container") ∧
          pressLikeActions.any (fun a => a ∈ unionActions st.actions cd.actions)
      then "button" else st.role := by
  simp only [mergeChild]; split <;> rfl

theorem anyPressLike_iff (acts : List String) (cacts : List String) :
    (pressLikeActions.any (fun a => a ∈ unionActions acts cacts) = true) ↔
      ∃ a ∈ pressLikeActions, a ∈ acts ∨ a ∈ cacts := by
  simp [List.any_eq_true, mem_unionActions]


/-! ## Claims about the role classifier and the merge step -/

/-- C7: the role classifier `simplify_role` is a pure total Lean function
(same inputs, same output, by construction); its rules are checked in
order with the first match winning: an absent (or empty) raw role yields
`"element"` for every action set (rule 1 precedes the scroll-action rule),
a role matching a button-family keyword wins over the container family
(`"AXMenuGroup"` contains both `menu` and `group` and classifies as
`"button"`), and the scroll-action rule precedes the container rule
(`"AXGroup"` with a scroll action classifies as `"scrollable"`). -/
theorem C7_classifier_rule_order :
    (∀ actions : List String, simplify_role none actions = "element") ∧
    (∀ actions : List String, simplify_role (some "") actions = "element") ∧
    simplify_role (some "AXMenuGroup") [] = "button" ∧
    simplify_role (some "AXGroup") ["ScrollDown"] = "scrollable" := by
  refine ⟨fun actions => ?_, fun actions => ?_, by decide, by decide⟩
  · simp [simplify_role]
  · simp [simplify_role]

/-- C6 counterexample: the claim says `classify(absent, {"scrollDown"})`
returns `scrollable`, but `simplify_role` returns `"element"` for every
absent role (the absent-role rule fires first), so it returns
`"element"` here, not `"scrollable"`. -/
theorem C6_counterexample :
    simplify_role none ["scrollDown"] = "element" ∧
    ¬ simplify_role none ["scrollDown"] = "scrollable" := by
  decide

/-- C6 (amended): role classification of the example inputs:
`simplify_role (some "AXButton") {} = "button"`,
`simplify_role (absent) {"scrollDown"} = "element"` (not `scrollable`:
the absent-role rule is checked first), and
`simplify_role (some "AXGroup") {} = "container"`. -/
theorem C6_examples :
    simplify_role (some "AXButton") [] = "button" ∧
    simplify_role none ["scrollDown"] = "element" ∧
    simplify_role (some "AXGroup") [] = "container" := by
  decide

/-- C2: the post-order merge step.  For every parent state and retained
child node: (a) the merged action set is exactly the union of the
parent's and the child's; (b) the parent's role becomes `"button"`
exactly when it was `"element"` or `"container"` and the unioned actions
contain one of press/open/showmenu/showdefaultui, and is unchanged
otherwise; (c) when the child's role is `"text"`, the parent has no name,
and the post-union actions contain an actionable name, the child's name
becomes the parent's name and the child is not appended; otherwise the
child is appended normally.  Finally, the serializer's child loop applies
exactly this step once per retained (non-truncated) child, in order. -/
theorem C2_post_order_merge :
    (∀ (st : MergeState) (cd : ElementData) (a : String),
        a ∈ (mergeChild st cd).actions ↔ a ∈ st.actions ∨ a ∈ cd.actions) ∧
    (∀ (st : MergeState) (cd : ElementData),
        (mergeChild st cd).role =
          if (st.role = "element" ∨ st.role = "container") ∧
              (∃ a ∈ pressLikeActions, a ∈ st.actions ∨ a ∈ cd.actions)
          then "button" else st.role) ∧
    (∀ (st : MergeState) (cd : ElementData),
        if cd.role = "text" ∧ pyFalsyName st.name = true ∧
            (∃ a ∈ pressLikeActions, a ∈ st.actions ∨ a ∈ cd.actions)
        then (mergeChild st cd).name = cd.name ∧
             (mergeChild st cd).children = st.children
        else (mergeChild st cd).name = st.name ∧
             (mergeChild st cd).children = st.children ++ [cd]) ∧
    (∀ (c : AXElement) (cs : List AXElement) (path : List Nat) (i depth : Nat)
        (st : MergeState) (cd : ElementData),
        serializeAbs c (path ++ [i]) depth = some cd →
        serializeFold (c :: cs) path i depth st =
          serializeFold cs path (i + 1) depth (mergeChild st cd)) := by
  refine ⟨?_, ?_, ?_, ?_⟩
  · intro st cd a
    rw [mergeChild_actions, mem_unionActions]
  · intro st cd
    rw [mergeChild_role]
    simp only [anyPressLike_iff]
  · intro st cd
    simp only [mergeChild]
    split
    · next hb =>
      rw [if_pos ⟨hb.1, hb.2.1, (anyPressLike_iff _ _).mpr hb.2.2⟩]
      exact ⟨rfl, rfl⟩
    · next hb =>
      rw [if_neg (fun hc => hb ⟨hc.1, hc.2.1, (anyPressLike_iff _ _).mp hc.2.2⟩)]
      exact ⟨rfl, rfl⟩
  · intro c cs path i depth st cd h
    simp only [serializeFold]
    rw [h]

/-! ## Claim C2 witness -/

/-- Concrete text leaf used by the C2 witness. -/
def textLeafW : AXElement :=
  .mk { emptyAttrs with axRole := some "AXStaticText", axTitle := some "OK" } [] []

/-- C2 witness: the merge step and the child loop evaluated at a concrete
actionable parent state and a concrete text child. -/
theorem C2_witness :
    (mergeChild ⟨"container", none, ["press"], []⟩
      (ElementData.mk "0/1" "text" (some "OK") [] [])).role = "button" ∧
    (mergeChild ⟨"container", none, ["press"], []⟩
      (ElementData.mk "0/1" "text" (some "OK") [] [])).name = some "OK" ∧
    serializeFold [textLeafW] [0] 1 1 ⟨"container", none, ["press"], []⟩ =
      serializeFold [] [0] 2 1 (mergeChild ⟨"container", none, ["press"], []⟩
        (ElementData.mk "0/1" "text" (some "OK") [] [])) := by
  have h : serializeAbs textLeafW ([0] ++ [1]) 1 =
      some (ElementData.mk "0/1" "text" (some "OK") [] []) := by
    simp +decide [serializeAbs, serializeFold, textLeafW, simplify_role,
      get_accessibility_name, emptyAttrs, strOk, AXAttrs.axValueStr,
      AXElement.attrs, AXElement.actions, AXElement.children, stripWs,
      pyLower, charLower, strContains, containsSeq, pyStartsWith,
      pathToId, pathChars, joinSep, natChars, isPyWs]
  exact ⟨by decide, by decide, C2_post_order_merge.2.2.2 _ _ _ _ _ _ _ h⟩

/-! ## Claim C8: depth-bounded serialization -/

mutual

/-- Height of a serialized node (a leaf has height 1). -/
def edHeight : ElementData → Nat
  | .mk _ _ _ _ cs => 1 + edHeightList cs
termination_by e => sizeOf e
decreasing_by all_goals simp_wf

def edHeightList : List ElementData → Nat
  | [] => 0
  | c :: rest => max (edHeight c) (edHeightList rest)
termination_by l => sizeOf l
decreasing_by all_goals simp_wf <;> simp_arith

end

theorem edHeightList_append (l : List ElementData) (x : ElementData) :
    edHeightList (l ++ [x]) = max (edHeightList l) (edHeight x) := by
  induction l with
  | nil => simp [edHeightList]
  | cons c rest ih =>
    simp only [List.cons_append, edHeightList]
    rw [ih]
    omega

theorem mergeChild_children_cases (st : MergeState) (cd : ElementData) :
    (mergeChild st cd).children = st.children ∨
    (mergeChild st cd).children = st.children ++ [cd] := by
  simp only [mergeChild]; split
  · exact Or.inl rfl
  · exact Or.inr rfl

theorem serializeFold_height (cs : List AXElement) (path : List Nat)
    (i depth : Nat) (st : MergeState) (B : Nat)
    (hc : ∀ c ∈ cs, ∀ p cd, serializeAbs c p depth = some cd → edHeight cd ≤ B) :
    edHeightList (serializeFold cs path i depth st).children ≤
      max (edHeightList st.children) B := by
  induction cs generalizing i st with
  | nil =>
    simp only [serializeFold]
    exact le_max_left _ _
  | cons c rest ih =>
    simp only [serializeFold]
    rcases hser : serializeAbs c (path ++ [i]) depth with _ | cd
    · exact ih (i + 1) st (fun c hm p cd h => hc c (List.mem_cons_of_mem _ hm) p cd h)
    · show edHeightList (serializeFold rest path (i + 1) depth (mergeChild st cd)).children ≤ _
      have hrest := ih (i + 1) (mergeChild st cd)
        (fun c hm p cd h => hc c (List.mem_cons_of_mem _ hm) p cd h)
      have hcd : edHeight cd ≤ B := hc c (List.mem_cons_self _ _) _ _ hser
      rcases mergeChild_children_cases st cd with hch | hch
      · rw [hch] at hrest
        exact hrest
      · rw [hch, edHeightList_append] at hrest
        omega

theorem serializeAbs_height (n : Nat) :
    ∀ (e : AXElement), sizeOf e ≤ n → ∀ (path : List Nat) (depth : Nat)
      (t : ElementData), serializeAbs e path depth = some t →
      edHeight t ≤ 41 - depth := by
  induction n with
  | zero =>
    intro e hs
    obtain ⟨attrs, acts, cs⟩ := e
    simp at hs
  | succ n ih =>
    intro e hs path depth t h
    obtain ⟨attrs, acts, cs⟩ := e
    rw [serializeAbs] at h
    split at h
    · exact absurd h (by simp)
    · next hd =>
      have hdepth : depth ≤ 40 := by omega
      simp only [Option.some.injEq] at h
      have hfold := serializeFold_height cs path 0 (depth + 1)
        ⟨simplify_role attrs.axRole acts,
          get_accessibility_name (.mk attrs acts cs), acts.map pyLower, []⟩
        (41 - (depth + 1))
        (fun c hm p cd hcd => by
          have hcs : sizeOf c ≤ n := by
            have h1 := List.sizeOf_lt_of_mem hm
            have h2 : sizeOf cs < sizeOf (AXElement.mk attrs acts cs) := by
              simp only [AXElement.mk.sizeOf_spec]
              omega
            omega
          exact ih c hcs p (depth + 1) cd hcd)
      rw [← h]
      simp only [edHeight]
      have hz : edHeightList ((⟨simplify_role attrs.axRole acts,
          get_accessibility_name (.mk attrs acts cs), acts.map pyLower, []⟩ :
          MergeState)).children = 0 := by
        show edHeightList [] = 0
        simp [edHeightList]
      omega

/-- C8: depth-bounded serialization: `get_window_structure_abstract`
returns a node (never errors) on every tree, including trees deeper than
the hard depth cap of 40, and the serialized output never has height
above 41 nodes: any branch of the input deeper than the cap is truncated
(the recursion returns `None` past depth 40 and the child is skipped)
rather than recursed into unboundedly. -/
theorem C8_depth_bounded :
    (∀ w : AXElement, (get_window_structure_abstract w).isSome = true) ∧
    (∀ (w : AXElement) (t : ElementData),
        get_window_structure_abstract w = some t → edHeight t ≤ 41) := by
  constructor
  · intro w
    obtain ⟨attrs, acts, cs⟩ := w
    rw [get_window_structure_abstract, serializeAbs]
    simp
  · intro w t h
    have := serializeAbs_height (sizeOf w) w (Nat.le_refl _) [0] 0 t h
    omega

/-- C8 witness: the theorem applied to a concrete one-node tree. -/
theorem C8_witness :
    get_window_structure_abstract (AXElement.mk emptyAttrs [] []) =
      some (ElementData.mk "0" "element" none [] []) ∧
    edHeight (ElementData.mk "0" "element" none [] []) ≤ 41 := by
  have h : get_window_structure_abstract (AXElement.mk emptyAttrs [] []) =
      some (ElementData.mk "0" "element" none [] []) := by
    simp +decide [get_window_structure_abstract, serializeAbs, serializeFold,
      simplify_role, get_accessibility_name, emptyAttrs, strOk,
      AXAttrs.axValueStr, AXElement.attrs, stripWs, pyLower,
      pathToId, pathChars, joinSep, natChars]
  exact ⟨h, C8_depth_bounded.2 _ _ h⟩

/-! ## Decimal printing and parsing round-trip -/

/-- The ten decimal digit characters. -/
def decimalDigits : List Char := ['0', '1', '2', '3', '4', '5', '6', '7', '8', '9']

theorem digitChar_mem_decimal (d : Nat) (h : d < 10) :
    Nat.digitChar d ∈ decimalDigits := by
  interval_cases d <;> decide

theorem natChars_mem_decimal (n : Nat) : ∀ c ∈ natChars n, c ∈ decimalDigits := by
  intro c hc
  unfold natChars at hc
  split at hc
  · simp at hc
    subst hc
    decide
  · next hn =>
    simp only [List.mem_reverse, List.mem_map] at hc
    obtain ⟨d, hd, rfl⟩ := hc
    exact digitChar_mem_decimal d (Nat.digits_lt_base (by norm_num) hd)

theorem natChars_ne_nil (n : Nat) : natChars n ≠ [] := by
  unfold natChars
  split
  · simp
  · next hn =>
    simp only [ne_eq, List.reverse_eq_nil_iff, List.map_eq_nil_iff]
    exact Nat.digits_ne_nil_iff_ne_zero.mpr hn

theorem decimal_not_ws : ∀ c ∈ decimalDigits, isPyWs c = false := by decide

theorem decimal_not_slash : ∀ c ∈ decimalDigits, ¬ c = '/' := by decide

theorem decimal_not_at : ∀ c ∈ decimalDigits, ¬ c = '@' := by decide

theorem decimal_not_sign : ∀ c ∈ decimalDigits, ¬ c = '-' ∧ ¬ c = '+' := by decide

theorem decimal_isDigit : ∀ c ∈ decimalDigits, c.isDigit = true := by decide

theorem decimal_not_identStart : ∀ c ∈ decimalDigits, isPyIdentStart c = false := by
  decide

theorem digitVal_digitChar (d : Nat) (h : d < 10) :
    digitVal (Nat.digitChar d) = d := by
  interval_cases d <;> decide

/-- Folding most-significant-first over printed digits recovers the
little-endian `Nat.ofDigits` value. -/
theorem foldl_digits_eq (L : List Nat) (h : ∀ d ∈ L, d < 10) (a : Nat) :
    List.foldl (fun acc c => 10 * acc + digitVal c) a ((L.map Nat.digitChar).reverse) =
      a * 10 ^ L.length + Nat.ofDigits 10 L := by
  induction L generalizing a with
  | nil => simp [Nat.ofDigits]
  | cons d L ih =>
    have hd : d < 10 := h d (List.mem_cons_self _ _)
    have hL : ∀ x ∈ L, x < 10 := fun x hx => h x (List.mem_cons_of_mem _ hx)
    simp only [List.map_cons, List.reverse_cons, List.foldl_append, List.foldl_cons,
      List.foldl_nil]
    rw [ih hL, digitVal_digitChar d hd, Nat.ofDigits_cons]
    simp only [List.length_cons, pow_succ]
    ring

theorem parseDigits_natChars (n : Nat) : parseDigits (natChars n) = some n := by
  have hdig : natChars n ≠ [] ∧ (natChars n).all Char.isDigit := by
    refine ⟨natChars_ne_nil n, ?_⟩
    rw [List.all_eq_true]
    exact fun c hc => decimal_isDigit c (natChars_mem_decimal n c hc)
  unfold parseDigits
  rw [if_pos hdig]
  unfold natChars
  split
  · next hn => subst hn; decide
  · next hn =>
    rw [foldl_digits_eq _ (fun d hd => Nat.digits_lt_base (by norm_num) hd)]
    simp [Nat.ofDigits_digits]

theorem natChars_injective : Function.Injective natChars := by
  intro a b hab
  have ha := parseDigits_natChars a
  have hb := parseDigits_natChars b
  rw [hab, hb] at ha
  exact (Option.some.injEq _ _).mp ha.symm

/-- Whitespace stripping is the identity on digit strings. -/
theorem dropWhile_eq_self_of_all {p : Char → Bool} {l : List Char}
    (h : ∀ c ∈ l, p c = false) : l.dropWhile p = l := by
  cases l with
  | nil => rfl
  | cons c rest =>
    rw [List.dropWhile_cons, if_neg]
    simp [h c (List.mem_cons_self _ _)]

theorem stripWs_eq_self {l : List Char} (h : ∀ c ∈ l, isPyWs c = false) :
    stripWs l = l := by
  unfold stripWs
  rw [dropWhile_eq_self_of_all h]
  rw [dropWhile_eq_self_of_all (fun c hc => h c (List.mem_reverse.mp hc))]
  exact List.reverse_reverse l

theorem pyIntChars_natChars (n : Nat) : pyIntChars (natChars n) = some (n : Int) := by
  have hs : stripWs (natChars n) = natChars n :=
    stripWs_eq_self (fun c hc => decimal_not_ws c (natChars_mem_decimal n c hc))
  obtain ⟨c, t, hct⟩ := List.exists_cons_of_ne_nil (natChars_ne_nil n)
  have hcmem : c ∈ decimalDigits := natChars_mem_decimal n c (by rw [hct]; simp)
  have hsign := decimal_not_sign c hcmem
  unfold pyIntChars
  rw [hs, hct]
  have hparse : parseDigits (c :: t) = some n := by rw [← hct]; exact parseDigits_natChars n
  split
  · next heq =>
    injection heq with h1 _
    exact absurd h1 hsign.1
  · next heq =>
    injection heq with h1 _
    exact absurd h1 hsign.2
  · rw [hparse]
    rfl

/-! ## Split/join round-trip -/

theorem splitOnChar_ne_nil (sep : Char) (l : List Char) : splitOnChar sep l ≠ [] := by
  cases l with
  | nil => simp [splitOnChar]
  | cons c rest =>
    unfold splitOnChar
    split
    · simp
    · split <;> simp

theorem splitOnChar_no_sep (sep : Char) (l : List Char) (h : sep ∉ l) :
    splitOnChar sep l = [l] := by
  induction l with
  | nil => rfl
  | cons c rest ih =>
    have hc : ¬ c = sep := fun hc => h (hc ▸ List.mem_cons_self _ _)
    have hrest : sep ∉ rest := fun hr => h (List.mem_cons_of_mem _ hr)
    conv_lhs => rw [splitOnChar]
    rw [ih hrest]
    show (if c = sep then [[], rest] else [c :: rest]) = [c :: rest]
    rw [if_neg hc]

theorem splitOnChar_append_sep (sep : Char) (x l : List Char) (h : sep ∉ x) :
    splitOnChar sep (x ++ sep :: l) = x :: splitOnChar sep l := by
  induction x with
  | nil =>
    simp only [List.nil_append]
    conv_lhs => rw [splitOnChar]
    obtain ⟨h0, t0, ht⟩ := List.exists_cons_of_ne_nil (splitOnChar_ne_nil sep l)
    rw [ht]
    simp
  | cons c x ih =>
    have hc : ¬ c = sep := fun hc => h (hc ▸ List.mem_cons_self _ _)
    have hx : sep ∉ x := fun hr => h (List.mem_cons_of_mem _ hr)
    simp only [List.cons_append]
    conv_lhs => rw [splitOnChar]
    rw [ih hx]
    show (if c = sep then [] :: x :: splitOnChar sep l
      else (c :: x) :: splitOnChar sep l) = (c :: x) :: splitOnChar sep l
    rw [if_neg hc]

theorem splitOnChar_joinSep (sep : Char) (parts : List (List Char))
    (hne : parts ≠ []) (h : ∀ x ∈ parts, sep ∉ x) :
    splitOnChar sep (joinSep sep parts) = parts := by
  induction parts with
  | nil => exact absurd rfl hne
  | cons x rest ih =>
    cases rest with
    | nil =>
      show splitOnChar sep (joinSep sep [x]) = [x]
      exact splitOnChar_no_sep sep x (h x (List.mem_cons_self _ _))
    | cons y r =>
      show splitOnChar sep (x ++ sep :: joinSep sep (y :: r)) = _
      rw [splitOnChar_append_sep sep x _ (h x (List.mem_cons_self _ _))]
      rw [ih (by simp) (fun z hz => h z (List.mem_cons_of_mem _ hz))]

/-- Every character of a joined list comes from a component or is the
separator. -/
theorem joinSep_mem (sep : Char) (parts : List (List Char)) (c : Char)
    (hc : c ∈ joinSep sep parts) : (∃ x ∈ parts, c ∈ x) ∨ c = sep := by
  induction parts with
  | nil => simp [joinSep] at hc
  | cons x rest ih =>
    cases rest with
    | nil =>
      exact Or.inl ⟨x, List.mem_cons_self _ _, hc⟩
    | cons y r =>
      have : c ∈ x ++ sep :: joinSep sep (y :: r) := hc
      rw [List.mem_append] at this
      rcases this with hx | hrest
      · exact Or.inl ⟨x, List.mem_cons_self _ _, hx⟩
      · rcases List.mem_cons.mp hrest with hsep | hj
        · exact Or.inr hsep
        · rcases ih hj with ⟨z, hz, hcz⟩ | hs
          · exact Or.inl ⟨z, List.mem_cons_of_mem _ hz, hcz⟩
          · exact Or.inr hs

theorem pathChars_mem (p : List Nat) (c : Char) (hc : c ∈ pathChars p) :
    c ∈ decimalDigits ∨ c = '/' := by
  rcases joinSep_mem '/' (p.map natChars) c hc with ⟨x, hx, hcx⟩ | hs
  · rcases List.mem_map.mp hx with ⟨n, _, rfl⟩
    exact Or.inl (natChars_mem_decimal n c hcx)
  · exact Or.inr hs

theorem pathChars_head (n : Nat) (rest : List Nat) :
    ∃ c t, pathChars (n :: rest) = c :: t ∧ c ∈ decimalDigits := by
  obtain ⟨c, t0, hct⟩ := List.exists_cons_of_ne_nil (natChars_ne_nil n)
  have hcmem : c ∈ decimalDigits := natChars_mem_decimal n c (by rw [hct]; simp)
  cases rest with
  | nil => exact ⟨c, t0, by show natChars n = _; rw [hct], hcmem⟩
  | cons y r =>
    refine ⟨c, t0 ++ '/' :: joinSep '/' ((y :: r).map natChars), ?_, hcmem⟩
    show natChars n ++ '/' :: joinSep '/' ((y :: r).map natChars) = _
    rw [hct]
    rfl

theorem pathChars_ne_nil (p : List Nat) (hp : p ≠ []) : pathChars p ≠ [] := by
  obtain ⟨n, rest, rfl⟩ := List.exists_cons_of_ne_nil hp
  obtain ⟨c, t, hct, _⟩ := pathChars_head n rest
  rw [hct]
  simp

theorem pathChars_getLast (p : List Nat) (hp : p ≠ []) :
    ∃ c, (pathChars p).getLast? = some c ∧ c ∈ decimalDigits := by
  induction p with
  | nil => exact absurd rfl hp
  | cons n rest ih =>
    cases rest with
    | nil =>
      have h1 : pathChars [n] = natChars n := rfl
      obtain ⟨c, hc⟩ : ∃ c, (natChars n).getLast? = some c := by
        rw [List.getLast?_eq_getLast_of_ne_nil (natChars_ne_nil n)]
        exact ⟨_, rfl⟩
      refine ⟨c, by rw [h1]; exact hc, ?_⟩
      exact natChars_mem_decimal n c (List.mem_of_mem_getLast? (by rw [hc]; rfl))
    | cons y r =>
      obtain ⟨c, hc, hcmem⟩ := ih (by simp)
      refine ⟨c, ?_, hcmem⟩
      show (natChars n ++ '/' :: pathChars (y :: r)).getLast? = some c
      rw [List.getLast?_append_cons]
      obtain ⟨c0, t0, hct0⟩ := List.exists_cons_of_ne_nil (pathChars_ne_nil (y :: r) (by simp))
      rw [hct0] at hc ⊢
      rw [List.getLast?_cons_cons]
      exact hc

theorem stripChar_eq_self (c : Char) (l : List Char)
    (h1 : ∀ c0 t, l = c0 :: t → ¬ c0 = c)
    (h2 : ∀ c0, l.getLast? = some c0 → ¬ c0 = c) :
    stripChar c l = l := by
  unfold stripChar
  have hd : l.dropWhile (· = c) = l := by
    cases l with
    | nil => rfl
    | cons c0 t =>
      rw [List.dropWhile_cons, if_neg]
      simp [h1 c0 t rfl]
  rw [hd]
  have hrev : l.reverse.dropWhile (· = c) = l.reverse := by
    cases hrl : l.reverse with
    | nil => rfl
    | cons c0 t =>
      rw [List.dropWhile_cons, if_neg]
      have : l.getLast? = some c0 := by
        rw [← List.head?_reverse, hrl]
        rfl
      simp [h2 c0 this]
  rw [hrev, List.reverse_reverse]

theorem stripChar_pathChars (p : List Nat) (hp : p ≠ []) :
    stripChar '/' (pathChars p) = pathChars p := by
  obtain ⟨n, rest, rfl⟩ := List.exists_cons_of_ne_nil hp
  apply stripChar_eq_self
  · intro c0 t hct
    obtain ⟨c1, t1, hct1, hmem⟩ := pathChars_head n rest
    rw [hct1] at hct
    injection hct with hc0 _
    subst hc0
    exact decimal_not_slash c1 hmem
  · intro c0 hlast
    obtain ⟨c1, hc1, hmem⟩ := pathChars_getLast (n :: rest) (by simp)
    rw [hc1] at hlast
    injection hlast with hc0
    subst hc0
    exact decimal_not_slash c1 hmem

/-! ## `find_element_by_id` (elementfinder.py:4-41) -/

/-- Pre-order recursive search by `AXIdentifier`
(atomacos `findFirstR(AXIdentifier=ident)`), modelled over the
descendants of the element it is invoked on. -/
def findFirstRList (cs : List AXElement) (ident : String) : Option AXElement :=
  match cs with
  | [] => none
  | .mk attrs acts kids :: rest =>
    if attrs.axIdentifier = some ident then some (.mk attrs acts kids)
    else
      match findFirstRList kids ident with
      | some r => some r
      | none => findFirstRList rest ident
termination_by sizeOf cs
decreasing_by all_goals simp_wf <;> omega

/-- The positional descent of `find_element_by_id` (the loop over
`indices[1:]`): read `AXChildren`, check Python truthiness and the upper
bound, then index with Python semantics; every failure (including an
`IndexError` from a large negative index) returns `None`. -/
def descendFind (e : AXElement) : List Int → Option AXElement
  | [] => some e
  | i :: rest =>
    if e.children.isEmpty ∨ (e.children.length : Int) ≤ i then none
    else
      match pyIndex e.children i with
      | some c => descendFind c rest
      | none => none

/-- `find_element_by_id(root_window, element_id)`.  The result is
`Except`: `.error` models the raised `ValueError` on an unparsable path,
`.ok none` models `return None`, `.ok (some e)` a found element. -/
def find_element_by_id (root_window : AXElement) (element_id : String) :
    Except String (Option AXElement) :=
  if element_id = "" then .ok none
  else
    match (if ¬ element_id.data.contains '@' ∧ ¬ element_id.data.contains '/' ∧
          isPyIdentifier element_id
        then findFirstRList root_window.children element_id else none) with
    | some el => .ok (some el)
    | none =>
      match ((splitOnChar '/' (stripChar '/'
          (match axSuffix element_id.data with
           | some suffix => suffix
           | none => element_id.data))).filter
            (fun x => ¬ stripWs x = [])).mapM pyIntChars with
      | none => .error "ValueError: invalid element_id path format"
      | some indices => .ok (descendFind root_window (indices.drop 1))

/-- Pure positional lookup: the native element reached from `e` by the
child indices `q`. -/
def nativeAt (e : AXElement) : List Nat → Option AXElement
  | [] => some e
  | j :: rest =>
    match e.children[j]? with
    | some c => nativeAt c rest
    | none => none

/-! ## Parse lemmas for serializer-issued identifiers -/

theorem axSuffix_eq_none (l : List Char) (h : '@' ∉ l) : axSuffix l = none := by
  induction l with
  | nil => rfl
  | cons c rest ih =>
    have hc : ¬ c = '@' := fun hc => h (hc ▸ List.mem_cons_self _ _)
    have hr : '@' ∉ rest := fun hm => h (List.mem_cons_of_mem _ hm)
    unfold axSuffix
    rw [ih hr]
    simp [hc]

theorem pathChars_no_at (p : List Nat) : '@' ∉ pathChars p := by
  intro hmem
  rcases pathChars_mem p '@' hmem with hd | hs
  · exact decimal_not_at '@' hd rfl
  · simp at hs

/-- A serializer-issued identifier never triggers the
`AXIdentifier` branch: a one-component path starts with a digit (not an
identifier start), and a longer path contains a slash. -/
theorem pathToId_case1_false (p : List Nat) (hp : p ≠ []) :
    ¬ (¬ (pathToId p).data.contains '@' = true ∧
       ¬ (pathToId p).data.contains '/' = true ∧
       isPyIdentifier (pathToId p) = true) := by
  obtain ⟨n, rest, rfl⟩ := List.exists_cons_of_ne_nil hp
  obtain ⟨c, t, hct, hmem⟩ := pathChars_head n rest
  rintro ⟨-, hslash, hident⟩
  cases rest with
  | cons y r =>
    apply hslash
    have hmem2 : '/' ∈ (pathToId (n :: y :: r)).data := by
      show '/' ∈ natChars n ++ '/' :: joinSep '/' ((y :: r).map natChars)
      simp
    exact List.contains_iff_exists_mem_beq.mpr ⟨'/', hmem2, by simp⟩
  | nil =>
    rw [isPyIdentifier] at hident
    have hdata : (pathToId [n]).data = c :: t := hct
    rw [hdata] at hident
    simp only [Bool.and_eq_true, decide_eq_true_eq] at hident
    have h0 := decimal_not_identStart c hmem
    rw [h0] at hident
    exact Bool.false_ne_true hident.1

theorem parse_components (p : List Nat) (hp : p ≠ []) :
    (splitOnChar '/' (stripChar '/' (pathChars p))).filter
        (fun x => ¬ stripWs x = []) = p.map natChars := by
  rw [stripChar_pathChars p hp]
  unfold pathChars
  rw [splitOnChar_joinSep '/' (p.map natChars) (by simpa using hp)
    (fun x hx hs => by
      rcases List.mem_map.mp hx with ⟨n, _, rfl⟩
      exact decimal_not_slash '/' (natChars_mem_decimal n '/' hs) rfl)]
  apply List.filter_eq_self.mpr
  intro x hx
  rcases List.mem_map.mp hx with ⟨n, _, rfl⟩
  have h0 : stripWs (natChars n) = natChars n :=
    stripWs_eq_self (fun c hc => decimal_not_ws c (natChars_mem_decimal n c hc))
  simp [h0, natChars_ne_nil n]

theorem mapM_pyIntChars (p : List Nat) :
    (p.map natChars).mapM pyIntChars = some (p.map Int.ofNat) := by
  induction p with
  | nil => rfl
  | cons n rest ih =>
    rw [List.map_cons, List.mapM_cons, pyIntChars_natChars n, List.map_cons]
    rw [ih]
    rfl

/-- Full behaviour of `find_element_by_id` on a serializer-issued path
identifier: the `AXIdentifier` branch is skipped, the regex finds no
`@`, stripping and splitting recover the path components, parsing
succeeds, and the function performs the positional descent over all
indices but the first. -/
theorem find_on_pathToId (root : AXElement) (p : List Nat) (hp : p ≠ []) :
    find_element_by_id root (pathToId p) =
      .ok (descendFind root ((p.map Int.ofNat).drop 1)) := by
  have hne : ¬ pathToId p = "" := by
    intro h0
    have h1 : pathChars p = [] := by
      have h2 := congrArg String.data h0
      simpa [pathToId] using h2
    exact pathChars_ne_nil p hp h1
  have hguard := pathToId_case1_false p hp
  have hax : axSuffix (pathToId p).data = none := by
    show axSuffix (pathChars p) = none
    exact axSuffix_eq_none _ (pathChars_no_at p)
  have hcomps : (splitOnChar '/' (stripChar '/' (pathToId p).data)).filter
      (fun x => ¬ stripWs x = []) = p.map natChars := by
    show (splitOnChar '/' (stripChar '/' (pathChars p))).filter _ = _
    exact parse_components p hp
  rw [find_element_by_id, if_neg hne, if_neg hguard]
  rw [hax]
  rw [hcomps, mapM_pyIntChars p]

/-- Valid pure descents are reproduced by the resolver
(Python-semantics descent with non-negative indices). -/
theorem descendFind_of_nativeAt (q : List Nat) (e e2 : AXElement)
    (h : nativeAt e q = some e2) :
    descendFind e (q.map Int.ofNat) = some e2 := by
  induction q generalizing e with
  | nil =>
    simp [nativeAt] at h
    subst h
    rfl
  | cons j rest ih =>
    rw [nativeAt] at h
    rcases hj : e.children[j]? with _ | c
    · rw [hj] at h
      exact absurd h (by simp)
    · rw [hj] at h
      have hlt : j < e.children.length := by
        by_contra hge
        rw [List.getElem?_eq_none (by omega)] at hj
        exact absurd hj (by simp)
      rw [List.map_cons, descendFind]
      have hcond : ¬ (e.children.isEmpty = true ∨
          (e.children.length : Int) ≤ Int.ofNat j) := by
        rintro (hemp | hle)
        · rw [List.isEmpty_iff] at hemp
          rw [hemp] at hlt
          simp at hlt
        · have h2 : Int.ofNat j = (j : Int) := rfl
          rw [h2] at hle
          have h4 : e.children.length ≤ j := by exact_mod_cast hle
          omega
      rw [if_neg hcond]
      have hpy : pyIndex e.children (Int.ofNat j) = some c := by
        unfold pyIndex
        rw [if_pos (show (0 : Int) ≤ Int.ofNat j from Int.natCast_nonneg j)]
        have h5 : (Int.ofNat j).toNat = j := rfl
        rw [h5]
        exact hj
      rw [hpy]
      exact ih c h

/-! ## Node enumeration of the serialized output -/

mutual

/-- All nodes of a serialized tree, the root included. -/
def edNodes (t : ElementData) : List ElementData :=
  match t with
  | .mk i r n a cs => .mk i r n a cs :: edNodesList cs
termination_by sizeOf t
decreasing_by all_goals simp_wf

def edNodesList (l : List ElementData) : List ElementData :=
  match l with
  | [] => []
  | c :: rest => edNodes c ++ edNodesList rest
termination_by sizeOf l
decreasing_by all_goals simp_wf <;> simp_arith

end

theorem mem_edNodesList (l : List ElementData) (m : ElementData) :
    m ∈ edNodesList l ↔ ∃ c ∈ l, m ∈ edNodes c := by
  induction l with
  | nil => simp [edNodesList]
  | cons c rest ih =>
    rw [edNodesList, List.mem_append, ih]
    constructor
    · rintro (h | ⟨c2, hc2, hm⟩)
      · exact ⟨c, List.mem_cons_self _ _, h⟩
      · exact ⟨c2, List.mem_cons_of_mem _ hc2, hm⟩
    · rintro ⟨c2, hc2, hm⟩
      rcases List.mem_cons.mp hc2 with rfl | hc2
      · exact Or.inl hm
      · exact Or.inr ⟨c2, hc2, hm⟩

theorem serializeAbs_id (e : AXElement) (path : List Nat) (depth : Nat)
    (t : ElementData) (h : serializeAbs e path depth = some t) :
    t.id = pathToId path := by
  obtain ⟨attrs, acts, cs⟩ := e
  rw [serializeAbs] at h
  split at h
  · exact absurd h (by simp)
  · simp only [Option.some.injEq] at h
    rw [← h]
    rfl

/-- Provenance of the children accumulated by the serializer's child
loop: each one was already present, or is the serialization of the
list element at offset `j` with path index `i + j`. -/
theorem serializeFold_children_mem (cs : List AXElement) (path : List Nat)
    (i depth : Nat) (st : MergeState) :
    ∀ cd ∈ (serializeFold cs path i depth st).children,
      cd ∈ st.children ∨ ∃ j c, cs[j]? = some c ∧
        serializeAbs c (path ++ [i + j]) depth = some cd := by
  induction cs generalizing i st with
  | nil =>
    intro cd hcd
    rw [serializeFold] at hcd
    exact Or.inl hcd
  | cons c rest ih =>
    intro cd hcd
    rw [serializeFold] at hcd
    rcases hser : serializeAbs c (path ++ [i]) depth with _ | cd0 <;> rw [hser] at hcd
    · rcases ih (i + 1) st cd hcd with hmem | ⟨j, c2, hc2, hs2⟩
      · exact Or.inl hmem
      · refine Or.inr ⟨j + 1, c2, by simpa using hc2, ?_⟩
        have : i + 1 + j = i + (j + 1) := by omega
        rw [this] at hs2
        exact hs2
    · rcases ih (i + 1) (mergeChild st cd0) cd hcd with hmem | ⟨j, c2, hc2, hs2⟩
      · rcases mergeChild_children_cases st cd0 with hch | hch <;> rw [hch] at hmem
        · exact Or.inl hmem
        · rcases List.mem_append.mp hmem with hmem | hmem
          · exact Or.inl hmem
          · rcases List.mem_singleton.mp hmem with rfl
            exact Or.inr ⟨0, c, by simp, by simpa using hser⟩
      · refine Or.inr ⟨j + 1, c2, by simpa using hc2, ?_⟩
        have : i + 1 + j = i + (j + 1) := by omega
        rw [this] at hs2
        exact hs2

/-- Round-trip core: every node of a serialized subtree corresponds to a
native element reachable by a path extension, carries that path as its
identifier, and is the serialization of that element there. -/
theorem serializeAbs_roundtrip (n : Nat) :
    ∀ (e : AXElement), sizeOf e ≤ n → ∀ (path : List Nat) (depth : Nat)
      (t : ElementData), serializeAbs e path depth = some t →
      ∀ m ∈ edNodes t, ∃ (q : List Nat) (e2 : AXElement),
        nativeAt e q = some e2 ∧
        serializeAbs e2 (path ++ q) (depth + q.length) = some m ∧
        m.id = pathToId (path ++ q) := by
  induction n with
  | zero =>
    intro e hs
    obtain ⟨attrs, acts, cs⟩ := e
    simp at hs
  | succ n ih =>
    intro e hs path depth t h m hm
    obtain ⟨attrs, acts, cs⟩ := e
    have horig := h
    rw [serializeAbs] at h
    split at h
    · exact absurd h (by simp)
    · next hd =>
      simp only [Option.some.injEq] at h
      rw [← h] at hm
      rw [edNodes] at hm
      rcases List.mem_cons.mp hm with rfl | hm
      · refine ⟨[], .mk attrs acts cs, rfl, ?_, ?_⟩
        · rw [List.append_nil]
          simpa [h] using horig
        · rw [List.append_nil]
          rw [h]
          exact serializeAbs_id _ _ _ _ horig
      · rcases (mem_edNodesList _ _).mp hm with ⟨c, hc, hmc⟩
        rcases serializeFold_children_mem cs path 0 (depth + 1)
            ⟨simplify_role attrs.axRole acts,
              get_accessibility_name (.mk attrs acts cs), acts.map pyLower, []⟩
            c hc with hmem | ⟨j, ch, hch, hser⟩
        · exact absurd hmem (by simp)
        · have hchs : sizeOf ch ≤ n := by
            have h1 : ch ∈ cs := List.getElem?_mem hch
            have h2 := List.sizeOf_lt_of_mem h1
            have h3 : sizeOf cs < sizeOf (AXElement.mk attrs acts cs) := by
              simp only [AXElement.mk.sizeOf_spec]
              omega
            omega
          have hzero : (0 : Nat) + j = j := by omega
          rw [hzero] at hser
          rcases ih ch hchs (path ++ [j]) (depth + 1) c hser m hmc with
            ⟨q, e2, hnat, hser2, hid⟩
          refine ⟨j :: q, e2, ?_, ?_, ?_⟩
          · rw [nativeAt]
            show (match cs[j]? with
              | some c => nativeAt c q
              | none => none) = some e2
            rw [hch]
            exact hnat
          · have hassoc : path ++ j :: q = (path ++ [j]) ++ q := by simp
            rw [hassoc]
            have hlen : depth + (j :: q).length = depth + 1 + q.length := by
              simp [List.length_cons]
              omega
            rw [hlen]
            exact hser2
          · have hassoc : path ++ j :: q = (path ++ [j]) ++ q := by simp
            rw [hassoc]
            exact hid

/-! ## Uniqueness of issued identifiers -/

theorem pathToId_injective (p1 p2 : List Nat) (hp1 : p1 ≠ []) (hp2 : p2 ≠ [])
    (h : pathToId p1 = pathToId p2) : p1 = p2 := by
  have hchars : pathChars p1 = pathChars p2 := by
    have := congrArg String.data h
    simpa [pathToId] using this
  have hsplit : p1.map natChars = p2.map natChars := by
    have hno : ∀ (p : List Nat), ∀ x ∈ p.map natChars, '/' ∉ x := by
      intro p x hx hs
      rcases List.mem_map.mp hx with ⟨n, _, rfl⟩
      exact decimal_not_slash '/' (natChars_mem_decimal n '/' hs) rfl
    have h1 := splitOnChar_joinSep '/' (p1.map natChars) (by simpa using hp1) (hno p1)
    have h2 := splitOnChar_joinSep '/' (p2.map natChars) (by simpa using hp2) (hno p2)
    rw [← h1, ← h2]
    show splitOnChar '/' (pathChars p1) = splitOnChar '/' (pathChars p2)
    rw [hchars]
  exact List.map_injective_iff.mpr natChars_injective hsplit

/-- Invariant of the child loop: accumulated children carry identifiers
`pathToId (path ++ [j])` with `j` below the running index, pairwise
distinct; both facts persist. -/
theorem serializeFold_children_pairwise (cs : List AXElement) (path : List Nat)
    (i depth : Nat) (st : MergeState)
    (hinv : ∀ cd ∈ st.children, ∃ j, j < i ∧ cd.id = pathToId (path ++ [j]))
    (hpw : List.Pairwise (fun a b => a.id ≠ b.id) st.children) :
    (∀ cd ∈ (serializeFold cs path i depth st).children,
        ∃ j, j < i + cs.length ∧ cd.id = pathToId (path ++ [j])) ∧
    List.Pairwise (fun a b => a.id ≠ b.id)
      (serializeFold cs path i depth st).children := by
  induction cs generalizing i st with
  | nil =>
    rw [serializeFold]
    exact ⟨fun cd hcd => by
      rcases hinv cd hcd with ⟨j, hj, hid⟩
      exact ⟨j, by simpa using hj, hid⟩, hpw⟩
  | cons c rest ih =>
    rw [serializeFold]
    rcases hser : serializeAbs c (path ++ [i]) depth with _ | cd0
    · have hres := ih (i + 1) st
        (fun cd hcd => by
          rcases hinv cd hcd with ⟨j, hj, hid⟩
          exact ⟨j, by omega, hid⟩) hpw
      refine ⟨fun cd hcd => ?_, hres.2⟩
      rcases hres.1 cd hcd with ⟨j, hj, hid⟩
      exact ⟨j, by simp at hj ⊢; omega, hid⟩
    · have hid0 : cd0.id = pathToId (path ++ [i]) := serializeAbs_id _ _ _ _ hser
      have hinv2 : ∀ cd ∈ (mergeChild st cd0).children,
          ∃ j, j < i + 1 ∧ cd.id = pathToId (path ++ [j]) := by
        intro cd hcd
        rcases mergeChild_children_cases st cd0 with hch | hch <;> rw [hch] at hcd
        · rcases hinv cd hcd with ⟨j, hj, hidj⟩
          exact ⟨j, by omega, hidj⟩
        · rcases List.mem_append.mp hcd with hcd | hcd
          · rcases hinv cd hcd with ⟨j, hj, hidj⟩
            exact ⟨j, by omega, hidj⟩
          · rcases List.mem_singleton.mp hcd with rfl
            exact ⟨i, by omega, hid0⟩
      have hpw2 : List.Pairwise (fun a b => a.id ≠ b.id)
          (mergeChild st cd0).children := by
        rcases mergeChild_children_cases st cd0 with hch | hch <;> rw [hch]
        · exact hpw
        · rw [List.pairwise_append]
          refine ⟨hpw, List.pairwise_singleton _ _, ?_⟩
          intro a ha b hb
          rcases List.mem_singleton.mp hb with rfl
          rcases hinv a ha with ⟨j, hj, hidj⟩
          rw [hidj, hid0]
          intro heq
          have := pathToId_injective _ _ (by simp) (by simp) heq
          have hj2 : j = i := by
            have := List.append_cancel_left this
            injection this
          omega
      have hres := ih (i + 1) (mergeChild st cd0) hinv2 hpw2
      refine ⟨fun cd hcd => ?_, hres.2⟩
      rcases hres.1 cd hcd with ⟨j, hj, hid⟩
      exact ⟨j, by simp at hj ⊢; omega, hid⟩

theorem pairwise_edNodesList (R : ElementData → ElementData → Prop)
    (l : List ElementData)
    (hin : ∀ c ∈ l, List.Pairwise R (edNodes c))
    (hcross : List.Pairwise
      (fun c1 c2 => ∀ m1 ∈ edNodes c1, ∀ m2 ∈ edNodes c2, R m1 m2) l) :
    List.Pairwise R (edNodesList l) := by
  induction l with
  | nil => simp [edNodesList]
  | cons c rest ih =>
    rw [edNodesList, List.pairwise_append]
    rcases List.pairwise_cons.mp hcross with ⟨hc, hcross2⟩
    refine ⟨hin c (List.mem_cons_self _ _),
      ih (fun c2 hc2 => hin c2 (List.mem_cons_of_mem _ hc2)) hcross2, ?_⟩
    intro m1 hm1 m2 hm2
    rcases (mem_edNodesList _ _).mp hm2 with ⟨c2, hc2, hmc2⟩
    exact hc c2 hc2 m1 hm1 m2 hmc2

/-- Identifier uniqueness: all nodes of one serialization pass carry
pairwise distinct identifiers. -/
theorem serializeAbs_ids_pairwise (n : Nat) :
    ∀ (e : AXElement), sizeOf e ≤ n → ∀ (path : List Nat) (depth : Nat)
      (t : ElementData), path ≠ [] → serializeAbs e path depth = some t →
      List.Pairwise (fun a b => a.id ≠ b.id) (edNodes t) := by
  induction n with
  | zero =>
    intro e hs
    obtain ⟨attrs, acts, cs⟩ := e
    simp at hs
  | succ n ih =>
    intro e hs path depth t hpath h
    obtain ⟨attrs, acts, cs⟩ := e
    have horig := h
    rw [serializeAbs] at h
    split at h
    · exact absurd h (by simp)
    · next hd =>
      simp only [Option.some.injEq] at h
      rw [← h, edNodes, List.pairwise_cons]
      have hfold := serializeFold_children_pairwise cs path 0 (depth + 1)
        ⟨simplify_role attrs.axRole acts,
          get_accessibility_name (.mk attrs acts cs), acts.map pyLower, []⟩
        (by intro cd hcd; exact absurd hcd (by simp))
        (by simp)
      have hsize : ∀ c ∈ cs, sizeOf c ≤ n := by
        intro c hc
        have h2 := List.sizeOf_lt_of_mem hc
        have h3 : sizeOf cs < sizeOf (AXElement.mk attrs acts cs) := by
          simp only [AXElement.mk.sizeOf_spec]
          omega
        omega
      have hprov : ∀ c ∈ (serializeFold cs path 0 (depth + 1)
          ⟨simplify_role attrs.axRole acts,
            get_accessibility_name (.mk attrs acts cs),
            acts.map pyLower, []⟩).children,
          ∃ j ch, cs[j]? = some ch ∧
            serializeAbs ch (path ++ [j]) (depth + 1) = some c := by
        intro c hc
        rcases serializeFold_children_mem cs path 0 (depth + 1) _ c hc with
          hmem | ⟨j, ch, hch, hser⟩
        · exact absurd hmem (by simp)
        · have hzero : (0 : Nat) + j = j := by omega
          rw [hzero] at hser
          exact ⟨j, ch, hch, hser⟩
      constructor
      · intro m hm
        rcases (mem_edNodesList _ _).mp hm with ⟨c, hc, hmc⟩
        rcases hprov c hc with ⟨j, ch, hch, hser⟩
        rcases serializeAbs_roundtrip n ch (hsize ch (List.getElem?_mem hch))
            (path ++ [j]) (depth + 1) c hser m hmc with ⟨q, e2, _, _, hid⟩
        show ¬ (ElementData.mk (pathToId path) _ _ _ _).id = m.id
        show ¬ pathToId path = m.id
        rw [hid]
        intro heq
        have hlists := pathToId_injective _ _ hpath (by simp) heq
        have : path.length = (path ++ [j] ++ q).length := congrArg List.length hlists
        simp at this
      · apply pairwise_edNodesList
        · intro c hc
          rcases hprov c hc with ⟨j, ch, hch, hser⟩
          exact ih ch (hsize ch (List.getElem?_mem hch)) (path ++ [j])
            (depth + 1) c (by simp) hser
        · have hpwids := hfold.2
          apply List.Pairwise.imp_of_mem ?_ hpwids
          intro c1 c2 hc1 hc2 hne m1 hm1 m2 hm2
          rcases hprov c1 hc1 with ⟨j1, ch1, hch1, hser1⟩
          rcases hprov c2 hc2 with ⟨j2, ch2, hch2, hser2⟩
          rcases serializeAbs_roundtrip n ch1 (hsize ch1 (List.getElem?_mem hch1))
              (path ++ [j1]) (depth + 1) c1 hser1 m1 hm1 with ⟨q1, _, _, _, hid1⟩
          rcases serializeAbs_roundtrip n ch2 (hsize ch2 (List.getElem?_mem hch2))
              (path ++ [j2]) (depth + 1) c2 hser2 m2 hm2 with ⟨q2, _, _, _, hid2⟩
          have hj12 : j1 ≠ j2 := by
            intro hj
            apply hne
            rw [serializeAbs_id _ _ _ _ hser1, serializeAbs_id _ _ _ _ hser2, hj]
          rw [hid1, hid2]
          intro heq
          have hlists := pathToId_injective _ _ (by simp) (by simp) heq
          rw [List.append_assoc, List.append_assoc] at hlists
          have := List.append_cancel_left hlists
          rw [List.singleton_append, List.singleton_append] at this
          injection this with h1 _
          exact hj12 h1

/-! ## Claims C1 and C9 -/

/-- C1: round-trip of serialization and resolution over a fixed tree.
Every node of the tree produced by one `get_window_structure_abstract`
pass has an identifier that is unique within the pass and is the
"/"-joined descent path `0 :: q` of the native element that produced the
node; resolving that identifier with `find_element_by_id` against the
same tree returns exactly the element at that position. -/
theorem C1_serialize_resolve_roundtrip (root : AXElement) (t : ElementData)
    (h : get_window_structure_abstract root = some t) :
    List.Pairwise (fun a b => a.id ≠ b.id) (edNodes t) ∧
    ∀ m ∈ edNodes t, ∃ (q : List Nat) (e : AXElement),
      m.id = pathToId (0 :: q) ∧
      nativeAt root q = some e ∧
      serializeAbs e (0 :: q) q.length = some m ∧
      find_element_by_id root m.id = .ok (some e) := by
  have h0 : serializeAbs root [0] 0 = some t := h
  refine ⟨serializeAbs_ids_pairwise (sizeOf root) root (Nat.le_refl _) [0] 0 t
    (by simp) h0, ?_⟩
  intro m hm
  rcases serializeAbs_roundtrip (sizeOf root) root (Nat.le_refl _) [0] 0 t h0 m hm
    with ⟨q, e, hnat, hser, hid⟩
  have hcons : ([0] : List Nat) ++ q = 0 :: q := rfl
  rw [hcons] at hser hid
  rw [Nat.zero_add] at hser
  refine ⟨q, e, hid, hnat, hser, ?_⟩
  rw [hid, find_on_pathToId root (0 :: q) (by simp)]
  have hdrop : ((0 :: q).map Int.ofNat).drop 1 = q.map Int.ofNat := by simp
  rw [hdrop, descendFind_of_nativeAt q root e hnat]

/-- Concrete window used by the C1 witness: a window containing one
button child. -/
def rootW : AXElement :=
  .mk { emptyAttrs with axRole := some "AXWindow" } []
    [.mk { emptyAttrs with axRole := some "AXButton", axTitle := some "OK" }
      ["Press"] []]

/-- C1 witness: the round-trip theorem applied to the concrete window. -/
theorem C1_witness :
    List.Pairwise (fun a b => a.id ≠ b.id)
      (edNodes (ElementData.mk "0" "button" none ["press"]
        [ElementData.mk "0/0" "button" (some "OK") ["press"] []])) ∧
    ∀ m ∈ edNodes (ElementData.mk "0" "button" none ["press"]
        [ElementData.mk "0/0" "button" (some "OK") ["press"] []]),
      ∃ (q : List Nat) (e : AXElement),
        m.id = pathToId (0 :: q) ∧
        nativeAt rootW q = some e ∧
        serializeAbs e (0 :: q) q.length = some m ∧
        find_element_by_id rootW m.id = .ok (some e) := by
  apply C1_serialize_resolve_roundtrip
  simp +decide [get_window_structure_abstract, serializeAbs, serializeFold,
    rootW, simplify_role, get_accessibility_name, mergeChild, unionActions,
    pressLikeActions, pyFalsyName, pathToId, pathChars, joinSep, natChars,
    emptyAttrs, strOk, AXAttrs.axValueStr, AXElement.attrs, AXElement.actions,
    AXElement.children, stripWs, pyLower, charLower, strContains, containsSeq,
    pyStartsWith, isPyWs]

/-- Failing descents: if a valid prefix of the path reaches an element
whose child list is too short for the next index, the whole descent
returns `None`. -/
theorem descendFind_out_of_range (q : List Nat) :
    ∀ (k : Nat) (e0 e : AXElement) (i : Nat),
      nativeAt e0 (q.take k) = some e → q[k]? = some i →
      e.children.length ≤ i →
      descendFind e0 (q.map Int.ofNat) = none := by
  induction q with
  | nil =>
    intro k e0 e i _ hidx _
    simp at hidx
  | cons j rest ih =>
    intro k e0 e i hreach hidx hout
    cases k with
    | zero =>
      simp only [List.take_zero] at hreach
      have he : e = e0 := by
        simp [nativeAt] at hreach
        exact hreach.symm
      subst he
      simp only [List.getElem?_cons_zero, Option.some.injEq] at hidx
      subst hidx
      rw [List.map_cons, descendFind]
      rw [if_pos]
      right
      have h1 : Int.ofNat j = (j : Int) := rfl
      rw [h1]
      exact_mod_cast hout
    | succ k =>
      simp only [List.take_succ_cons] at hreach
      rw [nativeAt] at hreach
      rcases hj : e0.children[j]? with _ | c <;> rw [hj] at hreach
      · exact absurd hreach (by simp)
      · simp only [List.getElem?_cons_succ] at hidx
        have hlt : j < e0.children.length := by
          by_contra hge
          rw [List.getElem?_eq_none (by omega)] at hj
          exact absurd hj (by simp)
        rw [List.map_cons, descendFind]
        have hcond : ¬ (e0.children.isEmpty = true ∨
            (e0.children.length : Int) ≤ Int.ofNat j) := by
          rintro (hemp | hle)
          · rw [List.isEmpty_iff] at hemp
            rw [hemp] at hlt
            simp at hlt
          · have h2 : Int.ofNat j = (j : Int) := rfl
            rw [h2] at hle
            have h4 : e0.children.length ≤ j := by exact_mod_cast hle
            omega
        rw [if_neg hcond]
        have hpy : pyIndex e0.children (Int.ofNat j) = some c := by
          unfold pyIndex
          rw [if_pos (show (0 : Int) ≤ Int.ofNat j from Int.natCast_nonneg j)]
          have h5 : (Int.ofNat j).toNat = j := rfl
          rw [h5]
          exact hj
        rw [hpy]
        exact ih k c e i hreach hidx hout

/-- C9: resolver failure semantics.  For every root and every
serializer-issued path identifier, as soon as a valid descent prefix
reaches an element for which the next index is out of range for its
current child list (for instance because a child was removed after the
identifier was issued), `find_element_by_id` returns `None`
(`notFound`) — never an element at a different position. -/
theorem C9_resolver_out_of_range (root : AXElement) (p : List Nat) (hp : p ≠ [])
    (k : Nat) (e : AXElement) (i : Nat)
    (hreach : nativeAt root ((p.drop 1).take k) = some e)
    (hidx : (p.drop 1)[k]? = some i)
    (hout : e.children.length ≤ i) :
    find_element_by_id root (pathToId p) = .ok none := by
  rw [find_on_pathToId root p hp]
  have hdrop : (p.map Int.ofNat).drop 1 = (p.drop 1).map Int.ofNat := by
    exact Eq.symm (List.map_drop Int.ofNat p 1)
  rw [hdrop, descendFind_out_of_range (p.drop 1) k root e i hreach hidx hout]

/-- C9 witness: the path `0/1` against a window that now has a single
child resolves to `notFound`. -/
theorem C9_witness :
    find_element_by_id rootW (pathToId [0, 1]) = .ok none := by
  apply C9_resolver_out_of_range rootW [0, 1] (by simp) 0 rootW 1
  · rfl
  · rfl
  · decide

/-! ## Live element model (dispatcher side, elementfinder.py:43-121)

The dispatcher runs against live handles whose calls can raise.  Each
element carries its own behaviour: the outcome of `getActions()`, of
invoking a named action, of `setString("AXValue", v)` and of
`sendGlobalKey` (`\x7bError msg\x7d` models a raised exception carrying
`msg`).  The runtime parent pointer is part of the element value;
observable side effects are collected in an event trace (`invoked` and
`sentKey` are recorded when the call is made, `setValue` when the set
succeeded). -/

inductive Event : Type where
  | setValue (tag v : String)
  | invoked (tag action : String)
  | sentKey (tag k : String)
deriving DecidableEq, Repr

structure ElemBeh : Type where
  tag : String
  getActionsR : Except String (List String)
  invokeR : String → Except String Unit
  setStringR : String → Except String Unit
  sendKeyR : Except String Unit

inductive LiveElement : Type where
  | mk (beh : ElemBeh) (children : List LiveElement) (parent : Option LiveElement)

def LiveElement.beh : LiveElement → ElemBeh
  | .mk b _ _ => b

def LiveElement.children : LiveElement → List LiveElement
  | .mk _ c _ => c

def LiveElement.parent : LiveElement → Option LiveElement
  | .mk _ _ p => p

/-- The candidate action names of the press/open/menu family, in the
order the code tries them. -/
def pressCandidates : List String :=
  ["Press", "Open", "ShowMenu", "Raise", "PerformClick"]

/-- `"-25205" in str(e)`: the benign platform error code test. -/
def isBenign (msg : String) : Bool := strContains msg "-25205"

/-- The scroll-action mapping of elementfinder.py:77-82. -/
def scrollAxAction (a : String) : String :=
  if a = "scrollup" then "ScrollUpByPage"
  else if a = "scrolldown" then "ScrollDownByPage"
  else if a = "scrollleft" then "ScrollLeftByPage"
  else "ScrollRightByPage"

/-- The `for candidate in (...)` loop on the addressed element
(elementfinder.py:90-99): `getActions` is re-read per candidate and the
`try` covers both the read and the invocation, so a benign error from
either returns success; non-benign errors are swallowed and the loop
continues.  `true` means the loop returned success; `false` means it
fell through to the parent climb. -/
def tryCandidatesElem (e : LiveElement) : List String → Bool × List Event
  | [] => (false, [])
  | cand :: rest =>
    match e.beh.getActionsR with
    | .error msg =>
      if isBenign msg then (true, []) else tryCandidatesElem e rest
    | .ok acts =>
      if cand ∈ acts then
        match e.beh.invokeR cand with
        | .ok _ => (true, [.invoked e.beh.tag cand])
        | .error msg =>
          if isBenign msg then (true, [.invoked e.beh.tag cand])
          else
            ((tryCandidatesElem e rest).1,
              .invoked e.beh.tag cand :: (tryCandidatesElem e rest).2)
      else tryCandidatesElem e rest

/-- The inner candidate loop of the parent climb
(elementfinder.py:108-115): here `actions` was read once outside, and
the `try` covers only the invocation. -/
def tryCandidatesParent (p : LiveElement) (acts : List String) :
    List String → Bool × List Event
  | [] => (false, [])
  | cand :: rest =>
    if cand ∈ acts then
      match p.beh.invokeR cand with
      | .ok _ => (true, [.invoked p.beh.tag cand])
      | .error msg =>
        if isBenign msg then (true, [.invoked p.beh.tag cand])
        else
          ((tryCandidatesParent p acts rest).1,
            .invoked p.beh.tag cand :: (tryCandidatesParent p acts rest).2)
    else tryCandidatesParent p acts rest

/-- The `while parent:` climb (elementfinder.py:101-116): read the
parent's actions (unreadable means empty), scan the candidates, and on
failure move to the next ancestor; no parent left means failure. -/
def climbParents : Option LiveElement → Bool × List Event
  | none => (false, [])
  | some (.mk beh cs par) =>
    match tryCandidatesParent (.mk beh cs par)
        (match beh.getActionsR with
         | .ok a => a
         | .error _ => []) pressCandidates with
    | (true, ev) => (true, ev)
    | (false, ev) =>
      ((climbParents par).1, ev ++ (climbParents par).2)
termination_by o => sizeOf o
decreasing_by all_goals (simp_wf; omega)

/-- The positional descent of `perform_element_action`
(elementfinder.py:53-57): `children = getattr(...) or []`, upper-bound
check only, Python indexing (a large negative index raises and the
whole call returns failure, modelled as `none`). -/
def descendPerform (e : LiveElement) : List Int → Option LiveElement
  | [] => some e
  | i :: rest =>
    if (e.children.length : Int) ≤ i then none
    else
      match pyIndex e.children i with
      | some c => descendPerform c rest
      | none => none

/-- The action dispatch on the resolved element
(elementfinder.py:59-118), after `action = action.lower()`. -/
def performOn (elem : LiveElement) (action : String) (value : Option String) :
    Bool × List Event :=
  if action = "type" ∨ action = "input" ∨ action = "setvalue" then
    match value with
    | none => (false, [])
    | some v =>
      match elem.beh.setStringR v with
      | .error _ => (false, [])
      | .ok _ =>
        match elem.beh.getActionsR with
        | .error _ => (false, [.setValue elem.beh.tag v])
        | .ok elemActions =>
          if "Confirm" ∈ elemActions then
            match elem.beh.invokeR "Confirm" with
            | .error _ =>
              (false, [.setValue elem.beh.tag v, .invoked elem.beh.tag "Confirm"])
            | .ok _ =>
              match elem.beh.sendKeyR with
              | .error _ =>
                (false, [.setValue elem.beh.tag v, .invoked elem.beh.tag "Confirm",
                  .sentKey elem.beh.tag "return"])
              | .ok _ =>
                match elem.beh.sendKeyR with
                | .error _ =>
                  (false, [.setValue elem.beh.tag v, .invoked elem.beh.tag "Confirm",
                    .sentKey elem.beh.tag "return", .sentKey elem.beh.tag "return"])
                | .ok _ =>
                  (true, [.setValue elem.beh.tag v, .invoked elem.beh.tag "Confirm",
                    .sentKey elem.beh.tag "return", .sentKey elem.beh.tag "return"])
          else (true, [.setValue elem.beh.tag v])
  else if action = "scrollup" ∨ action = "scrolldown" ∨
      action = "scrollleft" ∨ action = "scrollright" then
    match elem.beh.invokeR (scrollAxAction action) with
    | .ok _ => (true, [.invoked elem.beh.tag (scrollAxAction action)])
    | .error _ => (false, [.invoked elem.beh.tag (scrollAxAction action)])
  else
    match tryCandidatesElem elem pressCandidates with
    | (true, ev) => (true, ev)
    | (false, ev) =>
      ((climbParents elem.parent).1, ev ++ (climbParents elem.parent).2)

/-- `perform_element_action(app, window, element_id, action, value)`:
parse the path identifier (failure raises, caught by the outer handler),
descend from the window, then dispatch. -/
def perform_element_action (window : LiveElement) (element_id : String)
    (action : String) (value : Option String) : Bool × List Event :=
  match ((splitOnChar '/' (stripChar '/' element_id.data)).filter
      (fun x => ¬ stripWs x = [])).mapM pyIntChars with
  | none => (false, [])
  | some indices =>
    match descendPerform window (indices.drop 1) with
    | none => (false, [])
    | some elem => performOn elem (pyLower action) value

/-! ## Dispatcher loop lemmas -/

theorem tryCandidatesElem_empty (e : LiveElement) (cl : List String)
    (h : e.beh.getActionsR = .ok []) : tryCandidatesElem e cl = (false, []) := by
  induction cl with
  | nil => rfl
  | cons cand rest ih =>
    rw [tryCandidatesElem, h]
    simp only [List.not_mem_nil, if_false]
    exact ih

theorem tryCandidatesElem_benign_first (e : LiveElement) (acts : List String)
    (pre post : List String) (cand msg : String)
    (hacts : e.beh.getActionsR = .ok acts)
    (hpre : ∀ c ∈ pre, c ∉ acts)
    (hcand : cand ∈ acts)
    (hinv : e.beh.invokeR cand = .error msg)
    (hben : isBenign msg = true) :
    tryCandidatesElem e (pre ++ cand :: post) = (true, [.invoked e.beh.tag cand]) := by
  induction pre with
  | nil =>
    rw [List.nil_append, tryCandidatesElem]
    simp only [hacts]
    rw [if_pos hcand, hinv]
    simp [hben]
  | cons c pre ih =>
    rw [List.cons_append, tryCandidatesElem]
    simp only [hacts]
    rw [if_neg (hpre c (List.mem_cons_self _ _))]
    exact ih (fun c2 hc2 => hpre c2 (List.mem_cons_of_mem _ hc2))

theorem tryCandidatesParent_benign_first (p : LiveElement) (acts : List String)
    (pre post : List String) (cand msg : String)
    (hpre : ∀ c ∈ pre, c ∉ acts)
    (hcand : cand ∈ acts)
    (hinv : p.beh.invokeR cand = .error msg)
    (hben : isBenign msg = true) :
    tryCandidatesParent p acts (pre ++ cand :: post) =
      (true, [.invoked p.beh.tag cand]) := by
  induction pre with
  | nil =>
    rw [List.nil_append, tryCandidatesParent]
    rw [if_pos hcand, hinv]
    simp [hben]
  | cons c pre ih =>
    rw [List.cons_append, tryCandidatesParent]
    rw [if_neg (hpre c (List.mem_cons_self _ _))]
    exact ih (fun c2 hc2 => hpre c2 (List.mem_cons_of_mem _ hc2))

theorem tryCandidatesParent_ok_first (p : LiveElement) (acts : List String)
    (pre post : List String) (cand : String)
    (hpre : ∀ c ∈ pre, c ∉ acts)
    (hcand : cand ∈ acts)
    (hinv : p.beh.invokeR cand = .ok ()) :
    tryCandidatesParent p acts (pre ++ cand :: post) =
      (true, [.invoked p.beh.tag cand]) := by
  induction pre with
  | nil =>
    rw [List.nil_append, tryCandidatesParent]
    rw [if_pos hcand, hinv]
  | cons c pre ih =>
    rw [List.cons_append, tryCandidatesParent]
    rw [if_neg (hpre c (List.mem_cons_self _ _))]
    exact ih (fun c2 hc2 => hpre c2 (List.mem_cons_of_mem _ hc2))

/-- `performOn` with a press-family action reduces to the element loop
followed, on fall-through, by the parent climb. -/
theorem performOn_press (elem : LiveElement) :
    performOn elem "press" none =
      match tryCandidatesElem elem pressCandidates with
      | (true, ev) => (true, ev)
      | (false, ev) =>
        ((climbParents elem.parent).1, ev ++ (climbParents elem.parent).2) := by
  rw [performOn, if_neg (by decide), if_neg (by decide)]

theorem climbParents_eq_step (beh : ElemBeh) (cs : List LiveElement)
    (par : Option LiveElement) :
    climbParents (some (.mk beh cs par)) =
      match tryCandidatesParent (.mk beh cs par)
          (match beh.getActionsR with
           | .ok a => a
           | .error _ => []) pressCandidates with
      | (true, ev) => (true, ev)
      | (false, ev) => ((climbParents par).1, ev ++ (climbParents par).2) := by
  rw [climbParents]

/-! ## Claims C4, C5, C10 -/

/-- Concrete element whose `Confirm` invocation raises: used to refute
the "success regardless of confirmation outcome" part of C4. -/
def confW : LiveElement :=
  .mk { tag := "w", getActionsR := .ok ["Confirm"],
        invokeR := fun _ => .error "boom",
        setStringR := fun _ => .ok (), sendKeyR := .ok () } [] none

/-- C4 counterexample: with the value present and successfully set, a
raising confirmation action makes the call report failure (`false`),
although the claim says success is reported regardless of the
confirmation outcome; the `setValue` event shows the value was set. -/
theorem C4_counterexample :
    (perform_element_action confW "0" "type" (some "hi")).1 = false ∧
    Event.setValue "w" "hi" ∈ (perform_element_action confW "0" "type" (some "hi")).2 := by
  constructor
  · rfl
  · show Event.setValue "w" "hi" ∈ [Event.setValue "w" "hi", Event.invoked "w" "Confirm"]
    exact List.mem_cons_self _ _

/-- C4 (amended): for a text-entry action (`type`/`input`/`setvalue`),
an absent value reports failure without touching the element; with a
value present and the native set call succeeding, the value is set, and
the call reports success when no confirmation action is advertised or
when the confirmation and both confirming key presses do not raise — but
a raising confirmation makes it report failure even though the value
remains set.  The last conjunct links `perform_element_action` (which
lower-cases the action and resolves the id) to the dispatch. -/
theorem C4_text_entry_dispatch :
    (∀ (window : LiveElement) (id act : String),
        (pyLower act = "type" ∨ pyLower act = "input" ∨ pyLower act = "setvalue") →
        perform_element_action window id act none = (false, [])) ∧
    (∀ (elem : LiveElement) (act : String) (v : String),
        (act = "type" ∨ act = "input" ∨ act = "setvalue") →
        elem.beh.setStringR v = .ok () →
        (Event.setValue elem.beh.tag v ∈ (performOn elem act (some v)).2) ∧
        (∀ acts, elem.beh.getActionsR = .ok acts → "Confirm" ∉ acts →
          performOn elem act (some v) = (true, [.setValue elem.beh.tag v])) ∧
        (∀ acts, elem.beh.getActionsR = .ok acts → "Confirm" ∈ acts →
          elem.beh.invokeR "Confirm" = .ok () → elem.beh.sendKeyR = .ok () →
          (performOn elem act (some v)).1 = true) ∧
        (∀ acts msg, elem.beh.getActionsR = .ok acts → "Confirm" ∈ acts →
          elem.beh.invokeR "Confirm" = .error msg →
          (performOn elem act (some v)).1 = false ∧
          Event.setValue elem.beh.tag v ∈ (performOn elem act (some v)).2)) ∧
    (∀ (window : LiveElement) (act : String) (v : Option String),
        perform_element_action window "0" act v = performOn window (pyLower act) v) := by
  refine ⟨?_, ?_, ?_⟩
  · intro window id act hact
    rw [perform_element_action]
    rcases hparse : ((splitOnChar '/' (stripChar '/' id.data)).filter
        (fun x => ¬ stripWs x = [])).mapM pyIntChars with _ | indices
    · rfl
    · rcases hdesc : descendPerform window (indices.drop 1) with _ | elem
      · simp only [hdesc]
      · simp only [hdesc]
        rw [performOn, if_pos hact]
  · intro elem act v hact hset
    rw [performOn, if_pos hact]
    simp only [hset]
    refine ⟨?_, ?_, ?_, ?_⟩
    · rcases hga : elem.beh.getActionsR with msg | acts
      · simp only [hga]
        simp
      · simp only [hga]
        by_cases hcf : "Confirm" ∈ acts
        · rw [if_pos hcf]
          rcases elem.beh.invokeR "Confirm" with msg | u
          · simp
          · rcases elem.beh.sendKeyR with msg | u2 <;> simp
        · rw [if_neg hcf]
          simp
    · intro acts hga hcf
      simp only [hga]
      rw [if_neg hcf]
    · intro acts hga hcf hconf hkey
      simp only [hga]
      rw [if_pos hcf]
      simp only [hconf, hkey]
    · intro acts msg hga hcf hconf
      simp only [hga]
      rw [if_pos hcf]
      simp only [hconf]
      constructor <;> simp
  · intro window act v
    rfl

/-- Concrete elements for the C4 witness. -/
def okW : LiveElement :=
  .mk { tag := "t", getActionsR := .ok [],
        invokeR := fun _ => .ok (),
        setStringR := fun _ => .ok (), sendKeyR := .ok () } [] none

/-- C4 witness: the amended theorem applied at concrete inputs. -/
theorem C4_witness :
    perform_element_action okW "0" "TYPE" none = (false, []) ∧
    performOn okW "type" (some "hi") = (true, [.setValue "t" "hi"]) := by
  refine ⟨C4_text_entry_dispatch.1 okW "0" "TYPE" (Or.inl (by decide)), ?_⟩
  exact (C4_text_entry_dispatch.2.1 okW "type" "hi" (Or.inl rfl) rfl).2.1 []
    rfl (by decide)

/-- C5: benign-error policy.  If invoking a press/open/menu-family
candidate raises an error whose message carries the platform code
`-25205`, the dispatch reports success — on the addressed element
(first conjunct, where `cand` is the first applicable candidate in the
code's candidate order) and on an ancestor reached by the climb (second
conjunct); the third conjunct shows that a fruitless candidate scan at
one ancestor passes control unchanged to the next, so the second
conjunct applies at every ancestor the climb reaches. -/
theorem C5_benign_error_success :
    (∀ (elem : LiveElement) (acts pre post : List String) (cand msg : String),
        elem.beh.getActionsR = .ok acts →
        pressCandidates = pre ++ cand :: post →
        (∀ c ∈ pre, c ∉ acts) →
        cand ∈ acts →
        elem.beh.invokeR cand = .error msg →
        isBenign msg = true →
        performOn elem "press" none = (true, [.invoked elem.beh.tag cand])) ∧
    (∀ (beh : ElemBeh) (cs : List LiveElement) (par : Option LiveElement)
        (acts pre post : List String) (cand msg : String),
        beh.getActionsR = .ok acts →
        pressCandidates = pre ++ cand :: post →
        (∀ c ∈ pre, c ∉ acts) →
        cand ∈ acts →
        beh.invokeR cand = .error msg →
        isBenign msg = true →
        climbParents (some (.mk beh cs par)) = (true, [.invoked beh.tag cand])) ∧
    (∀ (beh : ElemBeh) (cs : List LiveElement) (par : Option LiveElement) (acts : List String),
        beh.getActionsR = .ok acts →
        tryCandidatesParent (.mk beh cs par) acts pressCandidates = (false, []) →
        climbParents (some (.mk beh cs par)) = climbParents par) := by
  refine ⟨?_, ?_, ?_⟩
  · intro elem acts pre post cand msg hacts hdecomp hpre hcand hinv hben
    rw [performOn_press]
    have htce := tryCandidatesElem_benign_first elem acts pre post cand msg
      hacts hpre hcand hinv hben
    rw [← hdecomp] at htce
    rw [htce]
  · intro beh cs par acts pre post cand msg hacts hdecomp hpre hcand hinv hben
    rw [climbParents_eq_step]
    have htcp := tryCandidatesParent_benign_first (.mk beh cs par) acts pre post
      cand msg hpre hcand hinv hben
    rw [← hdecomp] at htcp
    have hbeh : (LiveElement.mk beh cs par).beh = beh := rfl
    rw [hbeh] at htcp
    rw [hacts, htcp]
  · intro beh cs par acts hacts hscan
    rw [climbParents_eq_step, hacts, hscan]
    simp

/-- Concrete element for the C5 witness: its only candidate raises the
benign error. -/
def benW : LiveElement :=
  .mk { tag := "b", getActionsR := .ok ["Press"],
        invokeR := fun _ => .error "AXError -25205",
        setStringR := fun _ => .ok (), sendKeyR := .ok () } [] none

/-- C5 witness: the benign-error theorem applied to concrete elements. -/
theorem C5_witness :
    performOn benW "press" none = (true, [.invoked "b" "Press"]) ∧
    climbParents (some benW) = (true, [.invoked "b" "Press"]) := by
  constructor
  · exact C5_benign_error_success.1 benW ["Press"] []
      ["Open", "ShowMenu", "Raise", "PerformClick"] "Press" "AXError -25205"
      rfl rfl (by simp) (by simp) rfl (by decide)
  · exact C5_benign_error_success.2.1 benW.beh [] none ["Press"] []
      ["Open", "ShowMenu", "Raise", "PerformClick"] "Press" "AXError -25205"
      rfl rfl (by simp) (by simp) rfl (by decide)

/-- C10: dispatcher ancestor climb.  An element with an empty action set
whose parent supports `Press` is pressed successfully through the
parent, and the only recorded invocation is attributed to the parent
(first conjunct).  In general the climb tries each ancestor in turn: no
parent means failure (second conjunct), a successful candidate scan at
an ancestor stops the climb with success (third conjunct, `cand` the
first applicable candidate), and a fruitless scan passes to the next
ancestor (fourth conjunct); an element with no applicable action and no
parent reports failure (last conjunct). -/
theorem C10_ancestor_climb :
    (∀ (ebeh : ElemBeh) (ecs : List LiveElement) (pbeh : ElemBeh)
        (pcs : List LiveElement) (ppar : Option LiveElement) (pacts : List String),
        ebeh.getActionsR = .ok [] →
        pbeh.getActionsR = .ok pacts →
        "Press" ∈ pacts →
        pbeh.invokeR "Press" = .ok () →
        performOn (.mk ebeh ecs (some (.mk pbeh pcs ppar))) "press" none =
          (true, [.invoked pbeh.tag "Press"])) ∧
    (climbParents none = (false, [])) ∧
    (∀ (beh : ElemBeh) (cs : List LiveElement) (par : Option LiveElement)
        (acts pre post : List String) (cand : String),
        beh.getActionsR = .ok acts →
        pressCandidates = pre ++ cand :: post →
        (∀ c ∈ pre, c ∉ acts) →
        cand ∈ acts →
        beh.invokeR cand = .ok () →
        climbParents (some (.mk beh cs par)) = (true, [.invoked beh.tag cand])) ∧
    (∀ (beh : ElemBeh) (cs : List LiveElement) (par : Option LiveElement) (acts : List String),
        beh.getActionsR = .ok acts →
        tryCandidatesParent (.mk beh cs par) acts pressCandidates = (false, []) →
        climbParents (some (.mk beh cs par)) = climbParents par) ∧
    (∀ (ebeh : ElemBeh) (ecs : List LiveElement),
        ebeh.getActionsR = .ok [] →
        performOn (.mk ebeh ecs none) "press" none = (false, [])) := by
  refine ⟨?_, by rw [climbParents], ?_, ?_, ?_⟩
  · intro ebeh ecs pbeh pcs ppar pacts hea hpa hpress hinv
    rw [performOn_press]
    have htce : tryCandidatesElem (.mk ebeh ecs (some (.mk pbeh pcs ppar)))
        pressCandidates = (false, []) := tryCandidatesElem_empty _ _ hea
    rw [htce]
    have hparent : (LiveElement.mk ebeh ecs (some (.mk pbeh pcs ppar))).parent =
        some (.mk pbeh pcs ppar) := rfl
    rw [hparent]
    have htcp : tryCandidatesParent (.mk pbeh pcs ppar) pacts pressCandidates =
        (true, [.invoked pbeh.tag "Press"]) := by
      have h0 := tryCandidatesParent_ok_first (.mk pbeh pcs ppar) pacts []
        ["Open", "ShowMenu", "Raise", "PerformClick"] "Press" (by simp) hpress hinv
      exact h0
    rw [climbParents_eq_step, hpa, htcp]
    simp
  · intro beh cs par acts pre post cand hacts hdecomp hpre hcand hinv
    rw [climbParents_eq_step]
    have htcp := tryCandidatesParent_ok_first (.mk beh cs par) acts pre post
      cand hpre hcand hinv
    rw [← hdecomp] at htcp
    have hbeh : (LiveElement.mk beh cs par).beh = beh := rfl
    rw [hbeh] at htcp
    rw [hacts, htcp]
  · intro beh cs par acts hacts hscan
    rw [climbParents_eq_step, hacts, hscan]
    simp
  · intro ebeh ecs hea
    rw [performOn_press]
    have htce : tryCandidatesElem (.mk ebeh ecs none) pressCandidates =
        (false, []) := tryCandidatesElem_empty _ _ hea
    rw [htce]
    have hparent : (LiveElement.mk ebeh ecs none).parent = none := rfl
    rw [hparent]
    rw [climbParents]
    rfl

/-- Concrete pair for the C10 witness: a child with an empty action set
under a parent that supports `Press`. -/
def parentW : LiveElement :=
  .mk { tag := "p", getActionsR := .ok ["Press"],
        invokeR := fun _ => .ok (),
        setStringR := fun _ => .ok (), sendKeyR := .ok () } [] none

def childW : LiveElement :=
  .mk { tag := "c", getActionsR := .ok [],
        invokeR := fun _ => .error "cannot",
        setStringR := fun _ => .ok (), sendKeyR := .ok () } [] (some parentW)

/-- C10 witness: pressing the actionless child succeeds through, and is
attributed to, the parent. -/
theorem C10_witness :
    performOn childW "press" none = (true, [.invoked "p" "Press"]) := by
  have h := C10_ancestor_climb.1 childW.beh [] parentW.beh [] none ["Press"]
    rfl rfl (by simp) rfl
  exact h

/-! ## Tiered control strategy (main.py:69-174)

The three channels of `press_element`/`enter_text` are the scripting
channel (`applescript.*`), the accessibility channel (`ax.find_element`
plus `ax.press_element`/`ax.enter_text`), and the coordinate-simulation
channel (`ax.get_element_coords` plus `fallback.click_at`/
`fallback.type_text`).  These collaborators are out of scope and are
modelled as fixed outcome oracles; the trace records each call in
order.  `press_element`'s all-tiers-failed line refers to an undefined
name `app` (main.py:111), so that path raises a `NameError` instead of
returning `False`; it is modelled as `.error`. -/

inductive Chan : Type where
  | applescript | axFind | axPress | getCoords | clickAt | typeText
deriving DecidableEq, Repr

structure TierEnv : Type where
  applescriptOp : Except String Bool
  axFind : Except String (Option Unit)
  axAct : Except String Bool
  getCoords : Except String (Option (Int × Int))
  clickAt : Except String Bool
  typeText : Except String Bool

/-- Layer 3 of `press_element` (main.py:93-112): re-find the element,
read its coordinates, click there; exhaustion reaches the
`NameError`-raising print. -/
def pressLayer3 (env : TierEnv) (tr : List Chan) : Except String Bool × List Chan :=
  match env.axFind with
  | .error _ => (.error "NameError: name 'app' is not defined", tr ++ [.axFind])
  | .ok none => (.error "NameError: name 'app' is not defined", tr ++ [.axFind])
  | .ok (some _) =>
    match env.getCoords with
    | .error _ =>
      (.error "NameError: name 'app' is not defined", tr ++ [.axFind, .getCoords])
    | .ok none =>
      (.error "NameError: name 'app' is not defined", tr ++ [.axFind, .getCoords])
    | .ok (some _) =>
      match env.clickAt with
      | .ok true => (.ok true, tr ++ [.axFind, .getCoords, .clickAt])
      | _ =>
        (.error "NameError: name 'app' is not defined",
          tr ++ [.axFind, .getCoords, .clickAt])

/-- `press_element(app_name, element_id)` (main.py:69-112):
AppleScript first, then the accessibility channel, then the coordinate
fallback. -/
def press_element (env : TierEnv) : Except String Bool × List Chan :=
  match env.applescriptOp with
  | .ok true => (.ok true, [.applescript])
  | _ =>
    match env.axFind with
    | .error _ => pressLayer3 env [.applescript, .axFind]
    | .ok none => pressLayer3 env [.applescript, .axFind]
    | .ok (some _) =>
      match env.axAct with
      | .ok true => (.ok true, [.applescript, .axFind, .axPress])
      | _ => pressLayer3 env [.applescript, .axFind, .axPress]

/-- Layer 3 of `enter_text` (main.py:154-174): click to focus, then
type; `and` short-circuits, and the all-tiers-failed line here uses the
correct variable, so exhaustion returns `False`. -/
def enterLayer3 (env : TierEnv) (tr : List Chan) : Except String Bool × List Chan :=
  match env.axFind with
  | .error _ => (.ok false, tr ++ [.axFind])
  | .ok none => (.ok false, tr ++ [.axFind])
  | .ok (some _) =>
    match env.getCoords with
    | .error _ => (.ok false, tr ++ [.axFind, .getCoords])
    | .ok none => (.ok false, tr ++ [.axFind, .getCoords])
    | .ok (some _) =>
      match env.clickAt with
      | .error _ => (.ok false, tr ++ [.axFind, .getCoords, .clickAt])
      | .ok false => (.ok false, tr ++ [.axFind, .getCoords, .clickAt])
      | .ok true =>
        match env.typeText with
        | .ok true => (.ok true, tr ++ [.axFind, .getCoords, .clickAt, .typeText])
        | _ => (.ok false, tr ++ [.axFind, .getCoords, .clickAt, .typeText])

/-- `enter_text(app_name, element_id, text)` (main.py:130-174). -/
def enter_text (env : TierEnv) : Except String Bool × List Chan :=
  match env.applescriptOp with
  | .ok true => (.ok true, [.applescript])
  | _ =>
    match env.axFind with
    | .error _ => enterLayer3 env [.applescript, .axFind]
    | .ok none => enterLayer3 env [.applescript, .axFind]
    | .ok (some _) =>
      match env.axAct with
      | .ok true => (.ok true, [.applescript, .axFind, .axPress])
      | _ => enterLayer3 env [.applescript, .axFind, .axPress]

/-- Environment in which every channel would succeed. -/
def envA : TierEnv :=
  ⟨.ok true, .ok (some ()), .ok true, .ok (some (1, 2)), .ok true, .ok true⟩

/-- Environment in which AppleScript and the accessibility press fail
but the coordinate click succeeds. -/
def envB : TierEnv :=
  ⟨.ok false, .ok (some ()), .ok false, .ok (some (1, 2)), .ok true, .ok true⟩

/-- C3 counterexample.  The claim says the accessibility channel is
attempted before any lower-fidelity channel and that the element's
center point is obtained before the accessibility attempt.  Both parts
fail on the code: in `envA` the scripting channel is attempted (and
succeeds) without any accessibility attempt at all, and in `envB` the
coordinates are read only after the accessibility press was attempted
(`axPress` strictly precedes `getCoords` in the trace). -/
theorem C3_counterexample :
    press_element envA = (.ok true, [.applescript]) ∧
    Chan.axFind ∉ (press_element envA).2 ∧
    Chan.axPress ∉ (press_element envA).2 ∧
    press_element envB =
      (.ok true, [.applescript, .axFind, .axPress, .axFind, .getCoords, .clickAt]) ∧
    (press_element envB).2.indexOf Chan.axPress <
      (press_element envB).2.indexOf Chan.getCoords := by
  refine ⟨rfl, by decide, by decide, rfl, by decide⟩

/-- C3 (amended): tier ordering of the control strategy as implemented:
for both `press_element` and `enter_text`, the scripting (AppleScript)
channel is always attempted first; the element's on-screen center point
is obtained only during the coordinate fallback, after an accessibility
find attempt (not before the accessibility attempt); and any coordinate
click happens only after the coordinates were obtained. -/
theorem C3_tier_order (env : TierEnv) :
    ((press_element env).2.head? = some Chan.applescript ∧
     (Chan.getCoords ∈ (press_element env).2 →
       Chan.axFind ∈ (press_element env).2 ∧
       (press_element env).2.indexOf Chan.axFind <
         (press_element env).2.indexOf Chan.getCoords) ∧
     (Chan.clickAt ∈ (press_element env).2 →
       (press_element env).2.indexOf Chan.getCoords <
         (press_element env).2.indexOf Chan.clickAt)) ∧
    ((enter_text env).2.head? = some Chan.applescript ∧
     (Chan.getCoords ∈ (enter_text env).2 →
       Chan.axFind ∈ (enter_text env).2 ∧
       (enter_text env).2.indexOf Chan.axFind <
         (enter_text env).2.indexOf Chan.getCoords) ∧
     (Chan.clickAt ∈ (enter_text env).2 →
       (enter_text env).2.indexOf Chan.getCoords <
         (enter_text env).2.indexOf Chan.clickAt)) := by
  obtain ⟨a, f, p, c, k, t⟩ := env
  rcases a with m1 | (_ | _) <;>
    rcases f with m2 | (_ | u2) <;>
      rcases p with m3 | (_ | _) <;>
        rcases c with m4 | (_ | ⟨x, y⟩) <;>
          rcases k with m5 | (_ | _) <;>
            rcases t with m6 | (_ | _) <;>
              (simp only [press_element, pressLayer3, enter_text, enterLayer3]; decide)

/-- C3 witness: the amended ordering applied at the concrete
environment `envB`. -/
theorem C3_witness :
    Chan.axFind ∈ (press_element envB).2 ∧
    (press_element envB).2.indexOf Chan.axFind <
      (press_element envB).2.indexOf Chan.getCoords :=
  (C3_tier_order envB).1.2.1 (by decide)

end McpOsx
